import Mathlib

/-!
# Verification of the intelligent-scheduler decision core

A shallow embedding, in Lean 4, of the decision engine of the
`intelligent-scheduler` backend:

* `src/backend/search.py` — the A* branch-and-bound schedule optimizer;
* `src/backend/inference.py` — the Bayesian timing optimizer, the rule
  evaluator, the calendar reminder policy and the inference engine;
* `src/backend/learning_service.py` — the feedback learning service.

Modelling conventions:

* Python floats are modelled as exact rationals (`ℚ`).  The claims under
  study concern exact arithmetic identities, comparisons and control flow,
  none of which hinge on binary rounding of IEEE floats.
* `datetime` values are modelled as rational numbers of seconds
  (differences of datetimes are `total_seconds()`), except that a request
  context's timestamp is abstracted to the fields the code reads from it
  (hour, minute, weekday).
* `math.sqrt` is kept as an uninterpreted parameter `sqrtQ : ℚ → ℚ`; every
  theorem below holds for an arbitrary choice of that function.
* Python's `round(x, n)` (round half to even) is implemented exactly on
  rationals as `roundTo`.
* The SQLAlchemy session is modelled as an explicit `Store` value threaded
  through the functions; `db.add` appends a row, `query(...).first()` takes
  the first matching row, in-place mutation of a fetched row rewrites the
  first matching row, and `commit`/`flush`/`refresh` are no-ops on this
  pure representation.
* Human-readable strings (reasoning, explanations, messages) and timestamp
  bookkeeping fields (`last_updated`, `created_at`, wall-clock search time)
  are elided: no claim under study depends on them.
* `heapq` pops a minimum element under Python's lexicographic order of the
  pushed tuples.  The loop embedding (`entryLe`/`selectMin`) extracts a
  minimal element under the total lexicographic order of (priority, task
  index, accumulated reward) only.  Python's comparison continues into the
  `partial_schedule` list when those three components tie, and there a
  skip entry (`None`) compared against a timing window (`int`) raises
  `TypeError` — the pushed tuples carry no tiebreak counter.  `pyEntryLt`
  below models that fallible comparison exactly, and `heap_tie_type_error`
  exhibits an in-scope input on which `AStarScheduler.search` crashes
  while the totalized model keeps running; this is recorded as the C1
  code bug.  The schedule-shape and empty-input claims do not depend on
  the pop order.
-/

namespace Scheduler

/-! ## search.py — data model -/

/-- `search.TaskOption`: one timing option of a candidate task. -/
structure TaskOption where
  timing_window_minutes : Int
  expected_reward : ℚ
  context_match_score : ℚ
deriving DecidableEq, Repr

/-- `search.TaskCandidate`: a task with its possible timing options. -/
structure TaskCandidate where
  task_id : Int
  title : String
  priority_weight : ℚ
  options : List TaskOption
deriving DecidableEq, Repr

/-- `search.SearchResult` (the wall-clock `search_time_ms` field is elided). -/
structure SearchResult where
  total_expected_reward : ℚ
  schedule : List (Int × Option Int)
  nodes_explored : ℕ
  search_completed : Bool
deriving DecidableEq, Repr

/-- The inner loop of `search.py` lines 145-150: running maximum of the
option rewards of one candidate, starting from `0.0` with a strict `>`
comparison. -/
def bestOptionReward (c : TaskCandidate) : ℚ :=
  c.options.foldl (fun b o => if b < o.expected_reward then o.expected_reward else b) 0

/-- `max_reward_from` of `search.py` lines 143-150, as a function of the
candidate suffix: `maxRewardFrom (candidates.drop i)` is `max_reward_from[i]`. -/
def maxRewardFrom : List TaskCandidate → ℚ
  | [] => 0
  | c :: rest => bestOptionReward c + maxRewardFrom rest

/-- One entry of the priority queue of `AStarScheduler.search`:
the tuple `(priority, task_idx, accumulated_reward, partial_schedule)`. -/
structure Entry where
  priority : ℚ
  task_idx : ℕ
  acc : ℚ
  sched : List (Int × Option Int)
deriving DecidableEq, Repr

/-- Total lexicographic comparison of queue entries on (priority, task
index, accumulated reward): the order `heapq` uses on the pushed tuples,
totalized across ties of those three components.  Python's tuple
comparison instead continues into the `partial_schedule` component on
such a tie and can raise `TypeError` there (see `pyEntryLt` and
`heap_tie_type_error`): this total order erases that crash path, which
is recorded as the C1 code bug. -/
def entryLe (a b : Entry) : Bool :=
  if a.priority < b.priority then true
  else if b.priority < a.priority then false
  else if a.task_idx < b.task_idx then true
  else if b.task_idx < a.task_idx then false
  else decide (a.acc ≤ b.acc)

/-- Extract a minimal entry (first among ties) from a non-empty queue,
returning it together with the remaining entries.  Models `heapq.heappop`. -/
def selectMin (e : Entry) : List Entry → Entry × List Entry
  | [] => (e, [])
  | f :: rest =>
    if entryLe e f then
      let r := selectMin e rest
      (r.1, f :: r.2)
    else
      let r := selectMin f rest
      (r.1, e :: r.2)

/-- Python's `max(options, key=lambda opt: opt.expected_reward)`: first
maximal element under a strict `>` scan. -/
def pickBestOption (o : TaskOption) (rest : List TaskOption) : TaskOption :=
  rest.foldl (fun b x => if b.expected_reward < x.expected_reward then x else b) o

/-- `AStarScheduler._greedy_fallback` (search.py lines 211-237). -/
def greedyFallback : List TaskCandidate → ℚ × List (Int × Option Int)
  | [] => (0, [])
  | c :: rest =>
    let r := greedyFallback rest
    match c.options with
    | [] => (r.1, (c.task_id, none) :: r.2)
    | o :: os =>
      ((pickBestOption o os).expected_reward + r.1,
        (c.task_id, some (pickBestOption o os).timing_window_minutes) :: r.2)

/-- A placeholder candidate for the (never reached, see the invariant
`task_idx < candidates.length`) out-of-range index access
`candidates[task_idx]`. -/
def dummyCandidate : TaskCandidate := ⟨0, "", 0, []⟩

/-- The best-complete-solution update of `search.py` lines 167-170: a popped
complete schedule replaces the recorded best exactly when its accumulated
reward is strictly greater. -/
def bestUpdate (best : Option (ℚ × List (Int × Option Int))) (cur : Entry) :
    Option (ℚ × List (Int × Option Int)) :=
  match best with
  | none => some (cur.acc, cur.sched)
  | some b => if b.1 < cur.acc then some (cur.acc, cur.sched) else some b

/-- The upper-bound pruning test of `search.py` lines 173-176 (only active
once some complete solution has been recorded). -/
def pruneCheck (cands : List TaskCandidate) (best : Option (ℚ × List (Int × Option Int)))
    (cur : Entry) : Bool :=
  match best with
  | some b => decide (cur.acc + maxRewardFrom (cands.drop cur.task_idx) ≤ b.1)
  | none => false

/-- The branching step of `search.py` lines 178-190: one child per timing
option of the current candidate, then one skip child. -/
def childEntries (cands : List TaskCandidate) (cur : Entry) : List Entry :=
  let c := cands.getD cur.task_idx dummyCandidate
  (c.options.map fun o =>
    ({ priority := -((cur.acc + o.expected_reward) +
          maxRewardFrom (cands.drop (cur.task_idx + 1)))
       task_idx := cur.task_idx + 1
       acc := cur.acc + o.expected_reward
       sched := cur.sched ++ [(c.task_id, some o.timing_window_minutes)] } : Entry))
  ++ [({ priority := -(cur.acc + maxRewardFrom (cands.drop (cur.task_idx + 1)))
         task_idx := cur.task_idx + 1
         acc := cur.acc
         sched := cur.sched ++ [(c.task_id, none)] } : Entry)]

/-- The main loop of `AStarScheduler.search` (search.py lines 162-190).
`fuel` is the remaining node budget `max_nodes - nodes_explored`, so the
`fuel = 0` exit corresponds to `nodes_explored ≥ max_nodes` with a
non-empty queue (`search_completed = False`).  Returns
(best complete solution, nodes explored, search completed). -/
def astarLoop (cands : List TaskCandidate) (n : ℕ) (pruning : Bool) :
    ℕ → List Entry → Option (ℚ × List (Int × Option Int)) → ℕ →
    Option (ℚ × List (Int × Option Int)) × ℕ × Bool
  | _, [], best, explored => (best, explored, true)
  | 0, _ :: _, best, explored => (best, explored, false)
  | fuel + 1, e :: rest, best, explored =>
    let cur := (selectMin e rest).1
    let pq2 := (selectMin e rest).2
    if cur.task_idx = n then
      astarLoop cands n pruning fuel pq2 (bestUpdate best cur) (explored + 1)
    else if pruning && pruneCheck cands best cur then
      astarLoop cands n pruning fuel pq2 best (explored + 1)
    else
      astarLoop cands n pruning fuel (pq2 ++ childEntries cands cur) best (explored + 1)

/-- The root node pushed at `search.py` lines 155-157. -/
def initEntry (cands : List TaskCandidate) : Entry :=
  { priority := -(0 + maxRewardFrom cands), task_idx := 0, acc := 0, sched := [] }

/-- `AStarScheduler.search` (search.py lines 106-209). -/
def searchSched (maxNodes : ℕ) (pruning : Bool) (cands : List TaskCandidate) : SearchResult :=
  if cands.isEmpty then
    { total_expected_reward := 0, schedule := [], nodes_explored := 0, search_completed := true }
  else
    let res := astarLoop cands cands.length pruning maxNodes [initEntry cands] none 0
    let bc :=
      match res.1 with
      | some b => b
      | none => greedyFallback cands
    { total_expected_reward := bc.1, schedule := bc.2,
      nodes_explored := res.2.1, search_completed := res.2.2 }

/-- `search.optimize_schedule` with its default arguments
(`max_nodes=10000`, `enable_pruning=True`). -/
def optimize_schedule (cands : List TaskCandidate) : SearchResult :=
  searchSched 10000 true cands

/-- The claim-side quantity "maximum expected_reward among that candidate's
options" (taken as `0` for a candidate with no options). -/
def maxOptionReward (c : TaskCandidate) : ℚ :=
  (c.options.map TaskOption.expected_reward).foldr max 0

/-! ## search.py — the comparison Python actually performs on ties

The queue holds raw 4-tuples `(priority, task_idx, accumulated_reward,
partial_schedule)` with no tiebreak counter; when `heapq` compares two of
them, Python's tuple order falls through to the `partial_schedule` lists
once the numeric prefix ties.  The following definitions model that
comparison exactly, `TypeError` included. -/

/-- Python `<` between two schedule choices (`timing_window_minutes` or
`None`): defined only between two `int`s; any `<` involving `None` raises
`TypeError` in Python 3, modelled as `Except.error`. -/
def pyLtOptInt : Option Int → Option Int → Except Unit Bool
  | some x, some y => .ok (decide (x < y))
  | _, _ => .error ()

/-- Python list comparison on `partial_schedule`: scan to the first
position whose elements are not `==` (equality between `None` and an
`int` is `False` and never raises), apply `<` there — inside the pair the
first differing component decides, and a `None`-vs-`int` window raises —
and on a common prefix compare lengths. -/
def pyLtSched : List (Int × Option Int) → List (Int × Option Int) → Except Unit Bool
  | [], [] => .ok false
  | [], _ :: _ => .ok true
  | _ :: _, [] => .ok false
  | a :: as, b :: bs =>
    if a == b then pyLtSched as bs
    else if a.1 = b.1 then pyLtOptInt a.2 b.2
    else .ok (decide (a.1 < b.1))

/-- The comparison `newitem < parent` that `heapq._siftdown` evaluates on
two pushed queue tuples: Python's lexicographic tuple order, falling
through to the `partial_schedule` lists when `(priority, task_idx,
accumulated_reward)` tie. -/
def pyEntryLt (x y : Entry) : Except Unit Bool :=
  if x.priority == y.priority then
    if x.task_idx == y.task_idx then
      if x.acc == y.acc then pyLtSched x.sched y.sched
      else .ok (decide (x.acc < y.acc))
    else .ok (decide (x.task_idx < y.task_idx))
  else .ok (decide (x.priority < y.priority))

/-- A single candidate with one zero-reward option — inside every bound of
the C1 claim (1 ≤ 6 candidates, 1 ≤ 3 options, reward 0). -/
def crashCand : TaskCandidate :=
  { task_id := 1, title := "T", priority_weight := 1, options := [⟨30, 0, 1⟩] }

/-- The C1 code bug, exhibited: on `[crashCand]`, `search` pops the root
and pushes the option child and then the skip child (search.py lines
181-190).  The two children agree on `(priority, task_idx,
accumulated_reward)`, so the `heappush` of the skip child compares the
schedule lists `[(1, None)]` and `[(1, 30)]` and raises `TypeError`:
`AStarScheduler.search` crashes on this in-scope input instead of
returning the optimum with `search_completed = True`.  The totalized
order `entryLe` of the loop model erases this crash path. -/
theorem heap_tie_type_error :
    childEntries [crashCand] (initEntry [crashCand]) =
      [{ priority := 0, task_idx := 1, acc := 0, sched := [(1, some 30)] },
       { priority := 0, task_idx := 1, acc := 0, sched := [(1, none)] }] ∧
    pyEntryLt { priority := 0, task_idx := 1, acc := 0, sched := [(1, none)] }
      { priority := 0, task_idx := 1, acc := 0, sched := [(1, some 30)] } =
      .error () := by
  constructor
  · norm_num [childEntries, crashCand, initEntry, dummyCandidate, maxRewardFrom,
      bestOptionReward]
  · norm_num [pyEntryLt, pyLtSched, pyLtOptInt]
    intro h
    cases h

/-! ## search.py — order lemmas for the queue -/

theorem entryLe_iff (a b : Entry) :
    entryLe a b = true ↔
      a.priority < b.priority ∨
        (a.priority = b.priority ∧
          (a.task_idx < b.task_idx ∨ (a.task_idx = b.task_idx ∧ a.acc ≤ b.acc))) := by
  unfold entryLe
  split_ifs with h1 h2 h3 h4
  · simp [h1]
  · have hne : a.priority ≠ b.priority := fun h => absurd (h ▸ h2) (lt_irrefl _)
    simp [h1, hne]
  · have heq : a.priority = b.priority := le_antisymm (not_lt.mp h2) (not_lt.mp h1)
    simp [heq, h3, not_lt.mp h1]
  · have heq : a.priority = b.priority := le_antisymm (not_lt.mp h2) (not_lt.mp h1)
    have hne : a.task_idx ≠ b.task_idx := fun h => absurd (h ▸ h4) (lt_irrefl _)
    simp [heq, h3, hne, not_lt.mp h1]
  · have heq : a.priority = b.priority := le_antisymm (not_lt.mp h2) (not_lt.mp h1)
    have hidx : a.task_idx = b.task_idx := le_antisymm (not_lt.mp h4) (not_lt.mp h3)
    simp [heq, h3, hidx, not_lt.mp h1]

theorem entryLe_refl (a : Entry) : entryLe a a = true := by
  rw [entryLe_iff]; exact Or.inr ⟨rfl, Or.inr ⟨rfl, le_refl _⟩⟩

theorem entryLe_total (a b : Entry) : entryLe a b = true ∨ entryLe b a = true := by
  rw [entryLe_iff, entryLe_iff]
  rcases lt_trichotomy a.priority b.priority with h | h | h
  · exact Or.inl (Or.inl h)
  · rcases lt_trichotomy a.task_idx b.task_idx with h2 | h2 | h2
    · exact Or.inl (Or.inr ⟨h, Or.inl h2⟩)
    · rcases le_total a.acc b.acc with h3 | h3
      · exact Or.inl (Or.inr ⟨h, Or.inr ⟨h2, h3⟩⟩)
      · exact Or.inr (Or.inr ⟨h.symm, Or.inr ⟨h2.symm, h3⟩⟩)
    · exact Or.inr (Or.inr ⟨h.symm, Or.inl h2⟩)
  · exact Or.inr (Or.inl h)

theorem entryLe_trans {a b c : Entry} (hab : entryLe a b = true) (hbc : entryLe b c = true) :
    entryLe a c = true := by
  rw [entryLe_iff] at hab hbc ⊢
  rcases hab with h1 | ⟨h1, h1'⟩
  · rcases hbc with h2 | ⟨h2, _⟩
    · exact Or.inl (lt_trans h1 h2)
    · exact Or.inl (h2 ▸ h1)
  · rcases hbc with h2 | ⟨h2, h2'⟩
    · exact Or.inl (h1 ▸ h2)
    · refine Or.inr ⟨h1.trans h2, ?_⟩
      rcases h1' with h3 | ⟨h3, h3'⟩
      · rcases h2' with h4 | ⟨h4, _⟩
        · exact Or.inl (lt_trans h3 h4)
        · exact Or.inl (h4 ▸ h3)
      · rcases h2' with h4 | ⟨h4, h4'⟩
        · exact Or.inl (h3 ▸ h4)
        · exact Or.inr ⟨h3.trans h4, h3'.trans h4'⟩

theorem entryLe_priority {a b : Entry} (h : entryLe a b = true) : a.priority ≤ b.priority := by
  rw [entryLe_iff] at h
  rcases h with h | ⟨h, _⟩
  · exact le_of_lt h
  · exact le_of_eq h

/-- `selectMin` extracts a minimal element: it is below the seed and all
remaining entries, and together with the rest it is a permutation of the
input. -/
theorem selectMin_spec (e : Entry) (l : List Entry) :
    entryLe (selectMin e l).1 e = true ∧
      (∀ x ∈ (selectMin e l).2, entryLe (selectMin e l).1 x = true) ∧
      List.Perm ((selectMin e l).1 :: (selectMin e l).2) (e :: l) := by
  induction l generalizing e with
  | nil => simp [selectMin, entryLe_refl]
  | cons f rest ih =>
    by_cases h : entryLe e f = true
    · have hsel : selectMin e (f :: rest) =
          ((selectMin e rest).1, f :: (selectMin e rest).2) := by
        simp [selectMin, h]
      obtain ⟨ih1, ih2, ih3⟩ := ih e
      refine ⟨by rw [hsel]; exact ih1, ?_, ?_⟩
      · intro x hx
        rw [hsel] at hx ⊢
        rcases List.mem_cons.mp hx with rfl | hx
        · exact entryLe_trans ih1 h
        · exact ih2 x hx
      · rw [hsel]
        exact (List.Perm.swap f (selectMin e rest).1 (selectMin e rest).2).trans
          ((ih3.cons f).trans (List.Perm.swap e f rest))
    · have hb : entryLe e f = false := Bool.eq_false_iff.mpr h
      have h' : entryLe f e = true := (entryLe_total e f).resolve_left h
      have hsel : selectMin e (f :: rest) =
          ((selectMin f rest).1, e :: (selectMin f rest).2) := by
        simp [selectMin, hb]
      obtain ⟨ih1, ih2, ih3⟩ := ih f
      refine ⟨by rw [hsel]; exact entryLe_trans ih1 h', ?_, ?_⟩
      · intro x hx
        rw [hsel] at hx ⊢
        rcases List.mem_cons.mp hx with rfl | hx
        · exact entryLe_trans ih1 h'
        · exact ih2 x hx
      · rw [hsel]
        exact (List.Perm.swap e (selectMin f rest).1 (selectMin f rest).2).trans (ih3.cons e)

/-! ## search.py — reward arithmetic lemmas -/

theorem bestAux_init_le (l : List TaskOption) (a : ℚ) :
    a ≤ l.foldl (fun b o => if b < o.expected_reward then o.expected_reward else b) a := by
  induction l generalizing a with
  | nil => exact le_refl a
  | cons o rest ih =>
    refine le_trans ?_ (ih _)
    by_cases h : a < o.expected_reward <;> simp [List.foldl_cons, h]
    exact le_of_lt h

theorem bestAux_mem_le {l : List TaskOption} {x : TaskOption} (hx : x ∈ l) (a : ℚ) :
    x.expected_reward ≤
      l.foldl (fun b o => if b < o.expected_reward then o.expected_reward else b) a := by
  induction l generalizing a with
  | nil => cases hx
  | cons o rest ih =>
    rcases List.mem_cons.mp hx with rfl | hx
    · refine le_trans ?_ (bestAux_init_le rest _)
      by_cases h : a < x.expected_reward <;> simp [h]
      exact not_lt.mp h
    · exact ih hx _

theorem bestAux_attained (l : List TaskOption) (a : ℚ) :
    l.foldl (fun b o => if b < o.expected_reward then o.expected_reward else b) a = a ∨
      ∃ x ∈ l,
        l.foldl (fun b o => if b < o.expected_reward then o.expected_reward else b) a =
          x.expected_reward := by
  induction l generalizing a with
  | nil => exact Or.inl rfl
  | cons o rest ih =>
    simp only [List.foldl_cons]
    by_cases h : a < o.expected_reward
    · simp only [if_pos h]
      rcases ih o.expected_reward with h2 | ⟨x, hx, h2⟩
      · exact Or.inr ⟨o, List.mem_cons_self o rest, h2⟩
      · exact Or.inr ⟨x, List.mem_cons_of_mem o hx, h2⟩
    · simp only [if_neg h]
      rcases ih a with h2 | ⟨x, hx, h2⟩
      · exact Or.inl h2
      · exact Or.inr ⟨x, List.mem_cons_of_mem o hx, h2⟩

theorem bestOptionReward_nonneg (c : TaskCandidate) : 0 ≤ bestOptionReward c :=
  bestAux_init_le c.options 0

theorem le_bestOptionReward {c : TaskCandidate} {o : TaskOption} (h : o ∈ c.options) :
    o.expected_reward ≤ bestOptionReward c :=
  bestAux_mem_le h 0

theorem exists_best_option {c : TaskCandidate} (hne : c.options ≠ [])
    (hnn : ∀ o ∈ c.options, 0 ≤ o.expected_reward) :
    ∃ o ∈ c.options, o.expected_reward = bestOptionReward c := by
  rcases bestAux_attained c.options 0 with h | ⟨x, hx, h⟩
  · obtain ⟨o, ho⟩ := List.exists_mem_of_ne_nil c.options hne
    refine ⟨o, ho, le_antisymm (le_bestOptionReward ho) ?_⟩
    have hbz : bestOptionReward c = 0 := h
    rw [hbz]
    exact hnn o ho
  · exact ⟨x, hx, h.symm⟩

theorem maxRewardFrom_drop_length (cands : List TaskCandidate) :
    maxRewardFrom (cands.drop cands.length) = 0 := by
  rw [List.drop_length]; rfl

theorem drop_eq_getD_cons (cands : List TaskCandidate) (i : ℕ) (h : i < cands.length) :
    cands.drop i = cands.getD i dummyCandidate :: cands.drop (i + 1) := by
  rw [List.getD_eq_getElem cands dummyCandidate h]
  exact List.drop_eq_getElem_cons h

theorem maxRewardFrom_drop_succ (cands : List TaskCandidate) (i : ℕ) (h : i < cands.length) :
    maxRewardFrom (cands.drop i) =
      bestOptionReward (cands.getD i dummyCandidate) + maxRewardFrom (cands.drop (i + 1)) := by
  rw [drop_eq_getD_cons cands i h]; rfl

theorem getD_mem (cands : List TaskCandidate) (i : ℕ) (h : i < cands.length) :
    cands.getD i dummyCandidate ∈ cands := by
  rw [List.getD_eq_getElem cands dummyCandidate h]
  exact List.getElem_mem h

theorem maxRewardFrom_eq_sum (cands : List TaskCandidate) :
    maxRewardFrom cands = (cands.map bestOptionReward).sum := by
  induction cands with
  | nil => rfl
  | cons c rest ih => simp [maxRewardFrom, ih]

/-! ## search.py — greedy fallback lemmas -/

theorem foldlPick_mem (l : List TaskOption) (b : TaskOption) :
    l.foldl (fun b x => if b.expected_reward < x.expected_reward then x else b) b ∈ b :: l := by
  induction l generalizing b with
  | nil => exact List.mem_singleton.mpr rfl
  | cons x xs ih =>
    simp only [List.foldl_cons]
    by_cases h : b.expected_reward < x.expected_reward
    · rw [if_pos h]
      rcases List.mem_cons.mp (ih x) with h2 | h2
      · rw [h2]; exact List.mem_cons_of_mem b (List.mem_cons_self x xs)
      · exact List.mem_cons_of_mem b (List.mem_cons_of_mem x h2)
    · rw [if_neg h]
      rcases List.mem_cons.mp (ih b) with h2 | h2
      · rw [h2]; exact List.mem_cons_self b (x :: xs)
      · exact List.mem_cons_of_mem b (List.mem_cons_of_mem x h2)

theorem foldlPick_init_le (l : List TaskOption) (b : TaskOption) :
    b.expected_reward ≤
      (l.foldl (fun b x => if b.expected_reward < x.expected_reward then x else b)
        b).expected_reward := by
  induction l generalizing b with
  | nil => exact le_refl _
  | cons x xs ih =>
    simp only [List.foldl_cons]
    by_cases h : b.expected_reward < x.expected_reward
    · rw [if_pos h]; exact le_trans (le_of_lt h) (ih x)
    · rw [if_neg h]; exact ih b

theorem foldlPick_mem_le {l : List TaskOption} {x : TaskOption} (hx : x ∈ l) (b : TaskOption) :
    x.expected_reward ≤
      (l.foldl (fun b x => if b.expected_reward < x.expected_reward then x else b)
        b).expected_reward := by
  induction l generalizing b with
  | nil => cases hx
  | cons y ys ih =>
    simp only [List.foldl_cons]
    rcases List.mem_cons.mp hx with rfl | hx
    · by_cases h : b.expected_reward < x.expected_reward
      · rw [if_pos h]; exact foldlPick_init_le ys x
      · rw [if_neg h]; exact le_trans (not_lt.mp h) (foldlPick_init_le ys b)
    · by_cases h : b.expected_reward < y.expected_reward
      · rw [if_pos h]; exact ih hx y
      · rw [if_neg h]; exact ih hx b

theorem pickBestOption_mem (o : TaskOption) (rest : List TaskOption) :
    pickBestOption o rest ∈ o :: rest :=
  foldlPick_mem rest o

theorem pickBestOption_eq_bestOptionReward (c : TaskCandidate) (o : TaskOption)
    (rest : List TaskOption) (hopts : c.options = o :: rest)
    (hnn : ∀ x ∈ c.options, 0 ≤ x.expected_reward) :
    (pickBestOption o rest).expected_reward = bestOptionReward c := by
  refine le_antisymm ?_ ?_
  · have hm : pickBestOption o rest ∈ c.options := by
      rw [hopts]; exact pickBestOption_mem o rest
    exact le_bestOptionReward hm
  · obtain ⟨x, hx, hxr⟩ := exists_best_option (by rw [hopts]; simp) hnn
    rw [← hxr]
    rw [hopts] at hx
    rcases List.mem_cons.mp hx with rfl | hx
    · exact foldlPick_init_le rest x
    · exact foldlPick_mem_le hx o

theorem greedyFallback_total (cands : List TaskCandidate)
    (hnn : ∀ c ∈ cands, ∀ o ∈ c.options, 0 ≤ o.expected_reward) :
    (greedyFallback cands).1 = maxRewardFrom cands := by
  induction cands with
  | nil => rfl
  | cons c rest ih =>
    have hrest : ∀ x ∈ rest, ∀ o ∈ x.options, 0 ≤ o.expected_reward :=
      fun x hx => hnn x (List.mem_cons_of_mem c hx)
    rcases hopts : c.options with _ | ⟨o, os⟩
    · have hbz : bestOptionReward c = 0 := by unfold bestOptionReward; rw [hopts]; rfl
      simp [greedyFallback, hopts, maxRewardFrom, hbz, ih hrest]
    · have hb := pickBestOption_eq_bestOptionReward c o os hopts
        (hnn c (List.mem_cons_self c rest))
      simp [greedyFallback, hopts, maxRewardFrom, hb, ih hrest]

/-- The relation between a candidate and its produced schedule entry:
same task id, and the choice is either a declared window or a skip. -/
def ChoiceOK (c : TaskCandidate) (p : Int × Option Int) : Prop :=
  p.1 = c.task_id ∧ (p.2 = none ∨ ∃ o ∈ c.options, p.2 = some o.timing_window_minutes)

theorem greedyFallback_valid (cands : List TaskCandidate) :
    List.Forall₂ ChoiceOK cands (greedyFallback cands).2 := by
  induction cands with
  | nil => exact List.Forall₂.nil
  | cons c rest ih =>
    rcases hopts : c.options with _ | ⟨o, os⟩
    · have hg : (greedyFallback (c :: rest)).2 = (c.task_id, none) :: (greedyFallback rest).2 := by
        simp only [greedyFallback, hopts]
      rw [hg]
      exact List.Forall₂.cons (⟨rfl, Or.inl rfl⟩ : ChoiceOK c (c.task_id, none)) ih
    · have hmem : pickBestOption o os ∈ c.options := by
        rw [hopts]; exact pickBestOption_mem o os
      have hc : ChoiceOK c (c.task_id, some (pickBestOption o os).timing_window_minutes) :=
        ⟨rfl, Or.inr ⟨pickBestOption o os, hmem, rfl⟩⟩
      have hg : (greedyFallback (c :: rest)).2 =
          (c.task_id, some (pickBestOption o os).timing_window_minutes) ::
            (greedyFallback rest).2 := by
        simp only [greedyFallback, hopts]
      rw [hg]
      exact List.Forall₂.cons hc ih

/-! ## search.py — loop invariants: schedule shape -/

/-- Queue-entry invariant: the index is in range and the partial schedule
pairs the first `task_idx` candidates, in order, with legal choices. -/
def EntryValid (cands : List TaskCandidate) (e : Entry) : Prop :=
  e.task_idx ≤ cands.length ∧ List.Forall₂ ChoiceOK (cands.take e.task_idx) e.sched

/-- The recorded best complete solution, when present, is a legal complete
schedule. -/
def BestValid (cands : List TaskCandidate) (best : Option (ℚ × List (Int × Option Int))) : Prop :=
  ∀ b, best = some b → List.Forall₂ ChoiceOK cands b.2

theorem take_succ_getD (cands : List TaskCandidate) (i : ℕ) (h : i < cands.length) :
    cands.take (i + 1) = cands.take i ++ [cands.getD i dummyCandidate] := by
  rw [List.getD_eq_getElem cands dummyCandidate h]
  exact (List.take_concat_get' cands i h).symm

theorem bestUpdate_valid {cands : List TaskCandidate} {best cur}
    (hbest : BestValid cands best)
    (hcomplete : List.Forall₂ ChoiceOK cands (Entry.sched cur)) :
    BestValid cands (bestUpdate best cur) := by
  rcases best with _ | b0
  · intro b hb
    cases hb
    exact hcomplete
  · show BestValid cands (if b0.1 < cur.acc then some (cur.acc, cur.sched) else some b0)
    by_cases hlt : b0.1 < cur.acc
    · rw [if_pos hlt]
      intro b hb
      cases hb
      exact hcomplete
    · rw [if_neg hlt]
      intro b hb
      cases hb
      exact hbest b0 rfl

theorem childEntries_valid {cands : List TaskCandidate} {cur : Entry}
    (hlt : cur.task_idx < cands.length) (hv : EntryValid cands cur) :
    ∀ x ∈ childEntries cands cur, EntryValid cands x := by
  intro x hx
  have htake := take_succ_getD cands cur.task_idx hlt
  rcases List.mem_append.mp hx with hmap | hsk
  · obtain ⟨o, ho, rfl⟩ := List.mem_map.mp hmap
    refine ⟨by simpa using Nat.succ_le_of_lt hlt, ?_⟩
    simp only [htake]
    exact List.rel_append hv.2
      (List.Forall₂.cons ⟨rfl, Or.inr ⟨o, ho, rfl⟩⟩ List.Forall₂.nil)
  · have hx_eq := List.mem_singleton.mp hsk
    subst hx_eq
    refine ⟨by simpa using Nat.succ_le_of_lt hlt, ?_⟩
    simp only [htake]
    exact List.rel_append hv.2
      (List.Forall₂.cons ⟨rfl, Or.inl rfl⟩ List.Forall₂.nil)

theorem astarLoop_valid (cands : List TaskCandidate) (pruning : Bool) :
    ∀ (fuel : ℕ) (pq : List Entry) (best : Option (ℚ × List (Int × Option Int))) (explored : ℕ),
      (∀ e ∈ pq, EntryValid cands e) → BestValid cands best →
      BestValid cands (astarLoop cands cands.length pruning fuel pq best explored).1 := by
  intro fuel
  induction fuel with
  | zero =>
    intro pq best explored hpq hbest
    cases pq with
    | nil => simpa [astarLoop] using hbest
    | cons e rest => simpa [astarLoop] using hbest
  | succ fuel ih =>
    intro pq best explored hpq hbest
    cases pq with
    | nil => simpa [astarLoop] using hbest
    | cons e rest =>
      obtain ⟨hmin1, hmin2, hperm⟩ := selectMin_spec e rest
      have hcur_mem : (selectMin e rest).1 ∈ e :: rest :=
        hperm.mem_iff.mp (List.mem_cons_self _ _)
      have hpq2 : ∀ x ∈ (selectMin e rest).2, x ∈ e :: rest :=
        fun x hx => hperm.mem_iff.mp (List.mem_cons_of_mem _ hx)
      have hcurV : EntryValid cands (selectMin e rest).1 := hpq _ hcur_mem
      have hpq2V : ∀ x ∈ (selectMin e rest).2, EntryValid cands x :=
        fun x hx => hpq _ (hpq2 x hx)
      simp only [astarLoop]
      by_cases hidx : (selectMin e rest).1.task_idx = cands.length
      · rw [if_pos hidx]
        apply ih _ _ _ hpq2V
        refine bestUpdate_valid hbest ?_
        have := hcurV.2
        rwa [hidx, List.take_length] at this
      · rw [if_neg hidx]
        by_cases hpn : (pruning && pruneCheck cands best (selectMin e rest).1) = true
        · rw [if_pos hpn]
          exact ih _ _ _ hpq2V hbest
        · rw [if_neg hpn]
          apply ih _ _ _ ?_ hbest
          intro x hx
          rcases List.mem_append.mp hx with hx2 | hxc
          · exact hpq2V x hx2
          · exact childEntries_valid (lt_of_le_of_ne hcurV.1 hidx) hcurV x hxc

/-! ## search.py — loop invariants: optimality of the recorded best -/

/-- Queue-entry invariant for optimality: the index is in range, the stored
priority is the negated optimistic key, and the optimistic key never
exceeds the global optimum `maxRewardFrom cands`. -/
def EntryBound (cands : List TaskCandidate) (e : Entry) : Prop :=
  e.task_idx ≤ cands.length ∧
    e.priority = -(e.acc + maxRewardFrom (cands.drop e.task_idx)) ∧
    e.acc + maxRewardFrom (cands.drop e.task_idx) ≤ maxRewardFrom cands

/-- Any recorded best complete solution achieves the global optimum. -/
def BestOpt (cands : List TaskCandidate) (best : Option (ℚ × List (Int × Option Int))) : Prop :=
  ∀ b, best = some b → b.1 = maxRewardFrom cands

/-- Some queue entry lies on an optimal path (its optimistic key is exactly
the global optimum). -/
def HasWitness (cands : List TaskCandidate) (pq : List Entry) : Prop :=
  ∃ e ∈ pq, e.acc + maxRewardFrom (cands.drop e.task_idx) = maxRewardFrom cands

theorem bestOptionReward_nil {c : TaskCandidate} (h : c.options = []) :
    bestOptionReward c = 0 := by
  unfold bestOptionReward
  rw [h]
  rfl

theorem childEntries_bound {cands : List TaskCandidate} {cur : Entry}
    (hlt : cur.task_idx < cands.length) (hb : EntryBound cands cur) :
    ∀ x ∈ childEntries cands cur, EntryBound cands x := by
  intro x hx
  have hsucc := maxRewardFrom_drop_succ cands cur.task_idx hlt
  have hkey := hb.2.2
  rw [hsucc] at hkey
  rcases List.mem_append.mp hx with hmap | hsk
  · obtain ⟨o, ho, rfl⟩ := List.mem_map.mp hmap
    have hor : o.expected_reward ≤ bestOptionReward (cands.getD cur.task_idx dummyCandidate) :=
      le_bestOptionReward ho
    exact ⟨Nat.succ_le_of_lt hlt, rfl, by dsimp only; linarith⟩
  · have hx_eq := List.mem_singleton.mp hsk
    subst hx_eq
    have h0 : 0 ≤ bestOptionReward (cands.getD cur.task_idx dummyCandidate) :=
      bestOptionReward_nonneg _
    exact ⟨Nat.succ_le_of_lt hlt, rfl, by dsimp only; linarith⟩

/-- The popped entry of a best-first step has the maximal optimistic key;
when some queue entry is on an optimal path, so is the popped entry. -/
theorem popped_key_opt {cands : List TaskCandidate} {e : Entry} {rest : List Entry}
    (hpq : ∀ x ∈ e :: rest, EntryBound cands x)
    (hwit : HasWitness cands (e :: rest)) :
    (selectMin e rest).1.acc + maxRewardFrom (cands.drop (selectMin e rest).1.task_idx) =
      maxRewardFrom cands := by
  obtain ⟨hmin1, hmin2, hperm⟩ := selectMin_spec e rest
  obtain ⟨w, hw_mem, hw_key⟩ := hwit
  have hcur_mem : (selectMin e rest).1 ∈ e :: rest :=
    hperm.mem_iff.mp (List.mem_cons_self _ _)
  have hcurB := hpq _ hcur_mem
  have hwB := hpq _ hw_mem
  refine le_antisymm hcurB.2.2 ?_
  rcases List.mem_cons.mp (hperm.mem_iff.mpr hw_mem) with heq | hw2
  · rw [heq] at hw_key
    exact le_of_eq hw_key.symm
  · have hle := entryLe_priority (hmin2 w hw2)
    rw [hcurB.2.1, hwB.2.1] at hle
    have hkeys := neg_le_neg_iff.mp hle
    rw [hw_key] at hkeys
    exact hkeys

/-- Under a popped optimal incomplete entry, some child is again on an
optimal path. -/
theorem childEntries_witness {cands : List TaskCandidate} {cur : Entry}
    (hnn : ∀ c ∈ cands, ∀ o ∈ c.options, 0 ≤ o.expected_reward)
    (hlt : cur.task_idx < cands.length)
    (hkey : cur.acc + maxRewardFrom (cands.drop cur.task_idx) = maxRewardFrom cands) :
    ∃ x ∈ childEntries cands cur,
      x.acc + maxRewardFrom (cands.drop x.task_idx) = maxRewardFrom cands := by
  have hsucc := maxRewardFrom_drop_succ cands cur.task_idx hlt
  have hcmem : cands.getD cur.task_idx dummyCandidate ∈ cands := getD_mem cands _ hlt
  rcases hc : (cands.getD cur.task_idx dummyCandidate).options with _ | ⟨o0, os⟩
  · refine ⟨_, List.mem_append.mpr (Or.inr (List.mem_singleton.mpr rfl)), ?_⟩
    dsimp only
    rw [bestOptionReward_nil hc] at hsucc
    rw [← hkey, hsucc]
    ring
  · obtain ⟨o, ho, hor⟩ := exists_best_option (c := cands.getD cur.task_idx dummyCandidate)
      (by rw [hc]; simp) (hnn _ hcmem)
    refine ⟨_, List.mem_append.mpr (Or.inl (List.mem_map_of_mem _ ho)), ?_⟩
    dsimp only
    rw [← hkey, hsucc, hor]
    ring

theorem astarLoop_opt (cands : List TaskCandidate) (pruning : Bool)
    (hnn : ∀ c ∈ cands, ∀ o ∈ c.options, 0 ≤ o.expected_reward) :
    ∀ (fuel : ℕ) (pq : List Entry) (best : Option (ℚ × List (Int × Option Int))) (explored : ℕ),
      (∀ e ∈ pq, EntryBound cands e) → BestOpt cands best →
      (best = none → HasWitness cands pq) →
      BestOpt cands (astarLoop cands cands.length pruning fuel pq best explored).1 := by
  intro fuel
  induction fuel with
  | zero =>
    intro pq best explored hpq hbest hwit
    cases pq with
    | nil => simpa [astarLoop] using hbest
    | cons e rest => simpa [astarLoop] using hbest
  | succ fuel ih =>
    intro pq best explored hpq hbest hwit
    cases pq with
    | nil => simpa [astarLoop] using hbest
    | cons e rest =>
      obtain ⟨hmin1, hmin2, hperm⟩ := selectMin_spec e rest
      have hcur_mem : (selectMin e rest).1 ∈ e :: rest :=
        hperm.mem_iff.mp (List.mem_cons_self _ _)
      have hpq2 : ∀ x ∈ (selectMin e rest).2, x ∈ e :: rest :=
        fun x hx => hperm.mem_iff.mp (List.mem_cons_of_mem _ hx)
      have hcurB : EntryBound cands (selectMin e rest).1 := hpq _ hcur_mem
      have hpq2B : ∀ x ∈ (selectMin e rest).2, EntryBound cands x :=
        fun x hx => hpq _ (hpq2 x hx)
      simp only [astarLoop]
      by_cases hidx : (selectMin e rest).1.task_idx = cands.length
      · rw [if_pos hidx]
        have hHn : maxRewardFrom (cands.drop (selectMin e rest).1.task_idx) = 0 := by
          rw [hidx]
          exact maxRewardFrom_drop_length cands
        rcases best with _ | b0
        · have hcuropt : (selectMin e rest).1.acc = maxRewardFrom cands := by
            have := popped_key_opt hpq (hwit rfl)
            rwa [hHn, add_zero] at this
          apply ih _ _ _ hpq2B
          · intro b hb
            cases hb
            exact hcuropt
          · intro h
            exact Option.noConfusion h
        · have hb0 : b0.1 = maxRewardFrom cands := hbest b0 rfl
          have hacc_le : (selectMin e rest).1.acc ≤ maxRewardFrom cands := by
            have := hcurB.2.2
            rwa [hHn, add_zero] at this
          have hnotlt : ¬ b0.1 < (selectMin e rest).1.acc :=
            not_lt.mpr (hb0 ▸ hacc_le)
          have hupd : bestUpdate (some b0) (selectMin e rest).1 = some b0 := by
            show (if b0.1 < (selectMin e rest).1.acc then _ else some b0) = some b0
            rw [if_neg hnotlt]
          rw [hupd]
          apply ih _ _ _ hpq2B hbest
          intro h
          exact Option.noConfusion h
      · rw [if_neg hidx]
        have hlt : (selectMin e rest).1.task_idx < cands.length :=
          lt_of_le_of_ne hcurB.1 hidx
        rcases best with _ | b0
        · have hpn : (pruning && pruneCheck cands none (selectMin e rest).1) = false := by
            simp [pruneCheck]
          rw [if_neg (by ·rw [hpn]; simp : ¬ (pruning && pruneCheck cands none (selectMin e rest).1) = true)]
          apply ih _ _ _ ?_ ?_ ?_
          · intro x hx
            rcases List.mem_append.mp hx with hx2 | hxc
            · exact hpq2B x hx2
            · exact childEntries_bound hlt hcurB x hxc
          · intro b hb
            exact Option.noConfusion hb
          · intro _
            have hkey := popped_key_opt hpq (hwit rfl)
            obtain ⟨x, hxmem, hxkey⟩ := childEntries_witness hnn hlt hkey
            exact ⟨x, List.mem_append.mpr (Or.inr hxmem), hxkey⟩
        · by_cases hpn : (pruning && pruneCheck cands (some b0) (selectMin e rest).1) = true
          · rw [if_pos hpn]
            apply ih _ _ _ hpq2B hbest
            intro h
            exact Option.noConfusion h
          · rw [if_neg hpn]
            apply ih _ _ _ ?_ hbest ?_
            · intro x hx
              rcases List.mem_append.mp hx with hx2 | hxc
              · exact hpq2B x hx2
              · exact childEntries_bound hlt hcurB x hxc
            · intro h
              exact Option.noConfusion h

/-! ## search.py — node-count bound and termination of the loop -/

/-- Size of the full branching tree below a candidate suffix: each level
branches into one child per option plus a skip child. -/
def treeSize : List TaskCandidate → ℕ
  | [] => 1
  | c :: rest => 1 + (c.options.length + 1) * treeSize rest

/-- Potential of a queue: total tree size below all its entries. -/
def pqMeasure (cands : List TaskCandidate) (pq : List Entry) : ℕ :=
  (pq.map fun e => treeSize (cands.drop e.task_idx)).sum

theorem treeSize_pos (l : List TaskCandidate) : 1 ≤ treeSize l := by
  cases l with
  | nil => exact le_refl 1
  | cons c rest => exact Nat.le_add_right 1 _

theorem pqMeasure_perm (cands : List TaskCandidate) {pq pq' : List Entry}
    (h : pq.Perm pq') : pqMeasure cands pq = pqMeasure cands pq' :=
  (h.map _).sum_eq

theorem pqMeasure_append (cands : List TaskCandidate) (a b : List Entry) :
    pqMeasure cands (a ++ b) = pqMeasure cands a + pqMeasure cands b := by
  unfold pqMeasure
  rw [List.map_append, List.sum_append]

theorem treeSize_drop_succ (cands : List TaskCandidate) (i : ℕ) (h : i < cands.length) :
    treeSize (cands.drop i) =
      1 + ((cands.getD i dummyCandidate).options.length + 1) * treeSize (cands.drop (i + 1)) := by
  rw [drop_eq_getD_cons cands i h]
  rfl

theorem sum_map_const_entry (l : List TaskOption) (f : TaskOption → Entry) (k : ℕ)
    (cands : List TaskCandidate) (hf : ∀ o ∈ l, treeSize (cands.drop (f o).task_idx) = k) :
    ((l.map f).map fun e => treeSize (cands.drop e.task_idx)).sum = l.length * k := by
  induction l with
  | nil => simp
  | cons o t ih =>
    simp only [List.map_cons, List.sum_cons, List.length_cons]
    rw [hf o (List.mem_cons_self o t), ih (fun x hx => hf x (List.mem_cons_of_mem o hx))]
    ring

theorem pqMeasure_childEntries (cands : List TaskCandidate) (cur : Entry)
    (h : cur.task_idx < cands.length) :
    pqMeasure cands (childEntries cands cur) + 1 = treeSize (cands.drop cur.task_idx) := by
  unfold pqMeasure childEntries
  rw [List.map_append, List.sum_append]
  rw [sum_map_const_entry _ _ (treeSize (cands.drop (cur.task_idx + 1))) cands
    (fun o _ => rfl)]
  simp only [List.map_cons, List.map_nil, List.sum_cons, List.sum_nil]
  rw [treeSize_drop_succ cands cur.task_idx h]
  ring

theorem childEntries_idx_le {cands : List TaskCandidate} {cur : Entry}
    (hlt : cur.task_idx < cands.length) :
    ∀ x ∈ childEntries cands cur, x.task_idx ≤ cands.length := by
  intro x hx
  rcases List.mem_append.mp hx with hmap | hsk
  · obtain ⟨o, ho, rfl⟩ := List.mem_map.mp hmap
    exact Nat.succ_le_of_lt hlt
  · rw [List.mem_singleton.mp hsk]
    exact Nat.succ_le_of_lt hlt

theorem astarLoop_explored (cands : List TaskCandidate) (pruning : Bool) :
    ∀ (fuel : ℕ) (pq : List Entry) (best : Option (ℚ × List (Int × Option Int))) (explored : ℕ),
      (∀ e ∈ pq, e.task_idx ≤ cands.length) →
      (astarLoop cands cands.length pruning fuel pq best explored).2.1 ≤
        explored + pqMeasure cands pq := by
  intro fuel
  induction fuel with
  | zero =>
    intro pq best explored hpq
    cases pq with
    | nil => exact Nat.le_add_right explored _
    | cons e rest => exact Nat.le_add_right explored _
  | succ fuel ih =>
    intro pq best explored hpq
    cases pq with
    | nil => exact Nat.le_add_right explored _
    | cons e rest =>
      obtain ⟨hmin1, hmin2, hperm⟩ := selectMin_spec e rest
      have hcur_mem : (selectMin e rest).1 ∈ e :: rest :=
        hperm.mem_iff.mp (List.mem_cons_self _ _)
      have hpq2mem : ∀ x ∈ (selectMin e rest).2, x ∈ e :: rest :=
        fun x hx => hperm.mem_iff.mp (List.mem_cons_of_mem _ hx)
      have hpq2 : ∀ x ∈ (selectMin e rest).2, x.task_idx ≤ cands.length :=
        fun x hx => hpq _ (hpq2mem x hx)
      have hmeq : pqMeasure cands (e :: rest) =
          treeSize (cands.drop (selectMin e rest).1.task_idx) +
            pqMeasure cands (selectMin e rest).2 := by
        rw [← pqMeasure_perm cands hperm]
        rfl
      have hTpos := treeSize_pos (cands.drop (selectMin e rest).1.task_idx)
      simp only [astarLoop]
      by_cases hidx : (selectMin e rest).1.task_idx = cands.length
      · rw [if_pos hidx]
        have := ih (selectMin e rest).2 (bestUpdate best (selectMin e rest).1)
          (explored + 1) hpq2
        omega
      · rw [if_neg hidx]
        have hlt : (selectMin e rest).1.task_idx < cands.length :=
          lt_of_le_of_ne (hpq _ hcur_mem) hidx
        by_cases hpn : (pruning && pruneCheck cands best (selectMin e rest).1) = true
        · rw [if_pos hpn]
          have := ih (selectMin e rest).2 best (explored + 1) hpq2
          omega
        · rw [if_neg hpn]
          have hall : ∀ x ∈ (selectMin e rest).2 ++ childEntries cands (selectMin e rest).1,
              x.task_idx ≤ cands.length := by
            intro x hx
            rcases List.mem_append.mp hx with hx2 | hxc
            · exact hpq2 x hx2
            · exact childEntries_idx_le hlt x hxc
          have := ih _ best (explored + 1) hall
          rw [pqMeasure_append] at this
          have hcm := pqMeasure_childEntries cands (selectMin e rest).1 hlt
          omega

theorem astarLoop_completed (cands : List TaskCandidate) (pruning : Bool) :
    ∀ (fuel : ℕ) (pq : List Entry) (best : Option (ℚ × List (Int × Option Int))) (explored : ℕ),
      (∀ e ∈ pq, e.task_idx ≤ cands.length) →
      pqMeasure cands pq ≤ fuel →
      (astarLoop cands cands.length pruning fuel pq best explored).2.2 = true := by
  intro fuel
  induction fuel with
  | zero =>
    intro pq best explored hpq hm
    cases pq with
    | nil => rfl
    | cons e rest =>
      exfalso
      have h1 : 1 ≤ treeSize (cands.drop e.task_idx) := treeSize_pos _
      have : 1 ≤ pqMeasure cands (e :: rest) := by
        unfold pqMeasure
        simp only [List.map_cons, List.sum_cons]
        omega
      omega
  | succ fuel ih =>
    intro pq best explored hpq hm
    cases pq with
    | nil => rfl
    | cons e rest =>
      obtain ⟨hmin1, hmin2, hperm⟩ := selectMin_spec e rest
      have hcur_mem : (selectMin e rest).1 ∈ e :: rest :=
        hperm.mem_iff.mp (List.mem_cons_self _ _)
      have hpq2mem : ∀ x ∈ (selectMin e rest).2, x ∈ e :: rest :=
        fun x hx => hperm.mem_iff.mp (List.mem_cons_of_mem _ hx)
      have hpq2 : ∀ x ∈ (selectMin e rest).2, x.task_idx ≤ cands.length :=
        fun x hx => hpq _ (hpq2mem x hx)
      have hmeq : pqMeasure cands (e :: rest) =
          treeSize (cands.drop (selectMin e rest).1.task_idx) +
            pqMeasure cands (selectMin e rest).2 := by
        rw [← pqMeasure_perm cands hperm]
        rfl
      have hTpos := treeSize_pos (cands.drop (selectMin e rest).1.task_idx)
      simp only [astarLoop]
      by_cases hidx : (selectMin e rest).1.task_idx = cands.length
      · rw [if_pos hidx]
        exact ih _ _ (explored + 1) hpq2 (by omega)
      · rw [if_neg hidx]
        have hlt : (selectMin e rest).1.task_idx < cands.length :=
          lt_of_le_of_ne (hpq _ hcur_mem) hidx
        by_cases hpn : (pruning && pruneCheck cands best (selectMin e rest).1) = true
        · rw [if_pos hpn]
          exact ih _ _ (explored + 1) hpq2 (by omega)
        · rw [if_neg hpn]
          have hall : ∀ x ∈ (selectMin e rest).2 ++ childEntries cands (selectMin e rest).1,
              x.task_idx ≤ cands.length := by
            intro x hx
            rcases List.mem_append.mp hx with hx2 | hxc
            · exact hpq2 x hx2
            · exact childEntries_idx_le hlt x hxc
          have hcm := pqMeasure_childEntries cands (selectMin e rest).1 hlt
          refine ih _ _ (explored + 1) hall ?_
          rw [pqMeasure_append]
          omega

/-- Worst-case tree size for at most three options per candidate. -/
def pow4Chain : ℕ → ℕ
  | 0 => 1
  | d + 1 => 1 + 4 * pow4Chain d

theorem treeSize_le_pow4Chain (l : List TaskCandidate)
    (h : ∀ c ∈ l, c.options.length ≤ 3) : treeSize l ≤ pow4Chain l.length := by
  induction l with
  | nil => exact le_refl 1
  | cons c rest ih =>
    have h1 : c.options.length + 1 ≤ 4 := by
      have := h c (List.mem_cons_self c rest)
      omega
    have h2 := ih (fun x hx => h x (List.mem_cons_of_mem c hx))
    have h3 : (c.options.length + 1) * treeSize rest ≤ 4 * pow4Chain rest.length :=
      Nat.mul_le_mul h1 h2
    simp only [treeSize, pow4Chain, List.length_cons]
    omega

theorem pow4Chain_mono : Monotone pow4Chain := by
  apply monotone_nat_of_le_succ
  intro d
  induction d with
  | zero => simp [pow4Chain]
  | succ d ih =>
    simp only [pow4Chain]
    omega

/-! ## search.py — bridging the code's running maximum with the claim's
option maximum -/

theorem foldr_max_shift (m : List ℚ) (a b : ℚ) :
    m.foldr max (max a b) = max b (m.foldr max a) := by
  induction m with
  | nil => exact max_comm a b
  | cons x t ih =>
    simp only [List.foldr_cons]
    rw [ih, max_left_comm]

theorem if_lt_eq_max (a b : ℚ) : (if a < b then b else a) = max a b := by
  rcases le_or_lt b a with h | h
  · rw [if_neg (not_lt.mpr h), max_eq_left h]
  · rw [if_pos h, max_eq_right (le_of_lt h)]

theorem bestOptionReward_eq_maxOptionReward (c : TaskCandidate) :
    bestOptionReward c = maxOptionReward c := by
  unfold bestOptionReward maxOptionReward
  generalize c.options = l
  have key : ∀ (l : List TaskOption) (a : ℚ),
      l.foldl (fun b o => if b < o.expected_reward then o.expected_reward else b) a =
        (l.map TaskOption.expected_reward).foldr max a := by
    intro l
    induction l with
    | nil => intro a; rfl
    | cons o t ih =>
      intro a
      simp only [List.foldl_cons, List.map_cons, List.foldr_cons]
      rw [ih, if_lt_eq_max, foldr_max_shift]
  exact key l 0

/-! ## Claim theorems for search.py -/

/-- C10: on the empty candidate list, `optimize_schedule` returns reward 0,
an empty schedule, zero nodes explored, and a completed search
(search.py lines 132-139). -/
theorem optimize_schedule_empty :
    (optimize_schedule []).total_expected_reward = 0 ∧
      (optimize_schedule []).schedule = [] ∧
      (optimize_schedule []).nodes_explored = 0 ∧
      (optimize_schedule []).search_completed = true :=
  ⟨rfl, rfl, rfl, rfl⟩

theorem searchSched_eq (maxNodes : ℕ) (pruning : Bool) (cands : List TaskCandidate)
    (h : cands.isEmpty = false) :
    searchSched maxNodes pruning cands =
      { total_expected_reward :=
          (match (astarLoop cands cands.length pruning maxNodes [initEntry cands] none 0).1 with
            | some b => b
            | none => greedyFallback cands).1,
        schedule :=
          (match (astarLoop cands cands.length pruning maxNodes [initEntry cands] none 0).1 with
            | some b => b
            | none => greedyFallback cands).2,
        nodes_explored :=
          (astarLoop cands cands.length pruning maxNodes [initEntry cands] none 0).2.1,
        search_completed :=
          (astarLoop cands cands.length pruning maxNodes [initEntry cands] none 0).2.2 } := by
  unfold searchSched
  rw [if_neg (by rw [h]; exact Bool.false_ne_true)]

theorem initEntry_bound (cands : List TaskCandidate) : EntryBound cands (initEntry cands) :=
  ⟨Nat.zero_le _, rfl, le_of_eq (zero_add _)⟩

theorem initEntry_valid (cands : List TaskCandidate) : EntryValid cands (initEntry cands) :=
  ⟨Nat.zero_le _, List.Forall₂.nil⟩

/-- C9: the schedule returned by `optimize_schedule` pairs the input
candidates, in order, one pair per candidate, with the candidate's own task
id and either one of its declared timing windows or a skip; this covers
both the completed-search result and the greedy fallback. -/
theorem optimize_schedule_shape (cands : List TaskCandidate) :
    List.Forall₂ ChoiceOK cands (optimize_schedule cands).schedule := by
  cases cands with
  | nil => exact List.Forall₂.nil
  | cons c0 rest0 =>
    unfold optimize_schedule
    rw [searchSched_eq 10000 true (c0 :: rest0) rfl]
    have hvalid := astarLoop_valid (c0 :: rest0) true 10000 [initEntry (c0 :: rest0)] none 0
      (by
        intro x hx
        rw [List.mem_singleton.mp hx]
        exact initEntry_valid _)
      (fun b hb => Option.noConfusion hb)
    rcases hres : (astarLoop (c0 :: rest0) (c0 :: rest0).length true 10000
        [initEntry (c0 :: rest0)] none 0).1 with _ | b
    · exact greedyFallback_valid (c0 :: rest0)
    · rw [hres] at hvalid
      exact hvalid b rfl

/-- The C1 claim's conclusions, proved of the idealized loop model only:
with non-negative option rewards, the total expected reward returned by
the model's `optimize_schedule` equals the sum over candidates of the
maximum option reward — whether the search completes, hits the budget, or
falls back to greedy — and for at most 6 candidates with at most 3
options each the nodes explored stay within the default budget of 10000
with `search_completed` true.  This is NOT a theorem about the program:
the model totalizes the heap tie order, while the program's `heappush`
raises `TypeError` on in-scope tie inputs (see `heap_tie_type_error`), so
the claim itself is settled as a code bug.  The theorem documents that
the intended algorithm — the same loop with any crash-free tie order —
does satisfy the claim. -/
theorem optimize_schedule_unconstrained (cands : List TaskCandidate)
    (hnn : ∀ c ∈ cands, ∀ o ∈ c.options, 0 ≤ o.expected_reward) :
    (optimize_schedule cands).total_expected_reward = (cands.map maxOptionReward).sum ∧
      (cands.length ≤ 6 → (∀ c ∈ cands, c.options.length ≤ 3) →
        (optimize_schedule cands).nodes_explored ≤ 10000 ∧
        (optimize_schedule cands).search_completed = true) := by
  have hsum : maxRewardFrom cands = (cands.map maxOptionReward).sum := by
    rw [maxRewardFrom_eq_sum]
    congr 1
    exact List.map_congr_left fun c _ => bestOptionReward_eq_maxOptionReward c
  cases cands with
  | nil => exact ⟨rfl, fun _ _ => ⟨Nat.zero_le _, rfl⟩⟩
  | cons c0 rest0 =>
    unfold optimize_schedule
    rw [searchSched_eq 10000 true (c0 :: rest0) rfl]
    have hinitB : ∀ x ∈ [initEntry (c0 :: rest0)], EntryBound (c0 :: rest0) x := by
      intro x hx
      rw [List.mem_singleton.mp hx]
      exact initEntry_bound _
    have hinitIdx : ∀ x ∈ [initEntry (c0 :: rest0)], x.task_idx ≤ (c0 :: rest0).length := by
      intro x hx
      rw [List.mem_singleton.mp hx]
      exact Nat.zero_le _
    have hopt := astarLoop_opt (c0 :: rest0) true hnn 10000 [initEntry (c0 :: rest0)]
      none 0 hinitB (fun b hb => Option.noConfusion hb)
      (fun _ => ⟨_, List.mem_singleton.mpr rfl, zero_add _⟩)
    have hmeas : pqMeasure (c0 :: rest0) [initEntry (c0 :: rest0)] =
        treeSize (c0 :: rest0) := by
      unfold pqMeasure initEntry
      simp [List.drop]
    constructor
    · rcases hres : (astarLoop (c0 :: rest0) (c0 :: rest0).length true 10000
          [initEntry (c0 :: rest0)] none 0).1 with _ | b
      · show (greedyFallback (c0 :: rest0)).1 = _
        rw [greedyFallback_total (c0 :: rest0) hnn, hsum]
      · rw [hres] at hopt
        show b.1 = _
        rw [hopt b rfl, hsum]
    · intro hlen hopts
      have htree : treeSize (c0 :: rest0) ≤ 5461 := by
        have h1 := treeSize_le_pow4Chain (c0 :: rest0) hopts
        have h2 : pow4Chain (c0 :: rest0).length ≤ pow4Chain 6 := pow4Chain_mono hlen
        have h3 : pow4Chain 6 = 5461 := by norm_num [pow4Chain]
        omega
      constructor
      · have hexp := astarLoop_explored (c0 :: rest0) true 10000
          [initEntry (c0 :: rest0)] none 0 hinitIdx
        rw [hmeas] at hexp
        show (astarLoop (c0 :: rest0) (c0 :: rest0).length true 10000 _ none 0).2.1 ≤ 10000
        omega
      · exact astarLoop_completed (c0 :: rest0) true 10000
          [initEntry (c0 :: rest0)] none 0 hinitIdx (by rw [hmeas]; omega)

/-- A concrete two-candidate instance (the module's own doctest example)
used to witness `optimize_schedule_unconstrained`. -/
def c1WitnessCands : List TaskCandidate :=
  [⟨1, "Gym Workout", 4/5, [⟨30, 3/4, 1⟩, ⟨60, 13/20, 1⟩]⟩,
   ⟨2, "Call Mom", 9/10, [⟨15, 41/50, 1⟩]⟩]

theorem optimize_schedule_unconstrained_witness :
    (optimize_schedule c1WitnessCands).total_expected_reward = 157/100 ∧
      (optimize_schedule c1WitnessCands).nodes_explored ≤ 10000 ∧
      (optimize_schedule c1WitnessCands).search_completed = true := by
  have h := optimize_schedule_unconstrained c1WitnessCands
    (by norm_num [c1WitnessCands])
  refine ⟨?_, (h.2 (by norm_num [c1WitnessCands]) (by norm_num [c1WitnessCands])).1,
    (h.2 (by norm_num [c1WitnessCands]) (by norm_num [c1WitnessCands])).2⟩
  rw [h.1]
  norm_num [c1WitnessCands, maxOptionReward]

/-! ## Common utilities: Python `int()`, `round()`, truthiness, substring -/

/-- Python `int(x)` on a real number: truncation toward zero. -/
def pythonInt (q : ℚ) : ℤ :=
  if 0 ≤ q then ⌊q⌋ else ⌈q⌉

/-- Python `round(x, digits)`: round half to even, exactly on rationals. -/
def roundTo (digits : ℕ) (q : ℚ) : ℚ :=
  let m : ℚ := (10 : ℚ) ^ digits
  let x := q * m
  let f : ℤ := ⌊x⌋
  let r := x - (f : ℚ)
  if r < 1/2 then (f : ℚ) / m
  else if 1/2 < r then ((f : ℚ) + 1) / m
  else if f % 2 = 0 then (f : ℚ) / m else ((f : ℚ) + 1) / m

/-- Python truthiness of an optional string (`None` and `""` are falsy). -/
def truthyOptStr : Option String → Bool
  | none => false
  | some s => s != ""

/-- Python `str()` of an optional string (`str(None) = "None"`). -/
def stringOr : Option String → String
  | none => "None"
  | some s => s

def startsWithChars : List Char → List Char → Bool
  | [], _ => true
  | _ :: _, [] => false
  | a :: as, b :: bs => a == b && startsWithChars as bs

def containsChars : List Char → List Char → Bool
  | needle, [] => startsWithChars needle []
  | needle, b :: bs => startsWithChars needle (b :: bs) || containsChars needle bs

/-- Python `needle in hay` on strings. -/
def strContains (hay needle : String) : Bool :=
  containsChars needle.data hay.data

/-- ASCII upper-casing of one character (all strings this system handles
are ASCII, so this models Python `str.upper`). -/
def charUpper (c : Char) : Char :=
  if 'a' ≤ c ∧ c ≤ 'z' then Char.ofNat (c.toNat - 32) else c

/-- ASCII lower-casing of one character (models Python `str.lower`). -/
def charLower (c : Char) : Char :=
  if 'A' ≤ c ∧ c ≤ 'Z' then Char.ofNat (c.toNat + 32) else c

def strUpper (s : String) : String := ⟨s.data.map charUpper⟩

def strLower (s : String) : String := ⟨s.data.map charLower⟩

/-- Python `s.replace(old, new)` for single-character patterns. -/
def replaceChar (s : String) (old new : Char) : String :=
  ⟨s.data.map (fun c => if c = old then new else c)⟩

/-! ## inference.py / learning_service.py — data model

The SQLAlchemy session is replaced by an explicit `Store`.  `datetime`
columns are rational seconds; a request context's timestamp is abstracted
to the (hour, minute, weekday) fields the code reads. -/

/-- `models.UserContextSchema` (timestamp abstracted to hour/minute/weekday;
`additional_data` values are modelled as integers — only equality on them
is ever used). -/
structure UserContext where
  hour : ℕ
  minute : ℕ
  weekday : ℕ
  activity_type : String
  speed : ℚ
  is_connected_to_car_bluetooth : Bool
  wifi_ssid : Option String
  location_vector : Option String
  additional_data : Option (List (String × Int))
deriving DecidableEq, Repr

/-- A `"HH:MM-HH:MM"` trigger string: either parsed into start/end minutes
since midnight, or a string `strptime` rejects (the code catches the
exception and treats the check as failed). -/
inductive TimeRangeSpec where
  | valid (startMin endMin : ℕ)
  | malformed
deriving DecidableEq, Repr

/-- The JSON trigger-condition mapping of a task rule: one optional entry
per predicate key of `InferenceEngine._evaluate_rule`.  A `wifi_ssid` key
may itself carry `null` (a sentinel meaning "must be disconnected"). -/
structure TriggerCondition where
  activity : Option String
  time_range : Option TimeRangeSpec
  location_vector : Option String
  car_bluetooth : Option Bool
  wifi_ssid : Option (Option String)
  min_speed : Option ℚ
  custom : Option (List (String × Int))
deriving DecidableEq, Repr

/-- `models.TaskRuleDB` (timestamps elided). -/
structure RuleRow where
  id : Int
  task_name : String
  task_description : Option String
  trigger_condition : TriggerCondition
  current_probability_weight : ℚ
  calendar_event_id : Option String
  is_active : Int
deriving DecidableEq, Repr

/-- `models.BayesianTimingParametersDB` (timestamps elided). -/
structure ParamRow where
  task_type : String
  context_key : String
  timing_window : Int
  alpha : ℚ
  beta : ℚ
  total_triggers : ℕ
deriving DecidableEq, Repr

/-- `models.CalendarEventDB`, restricted to the fields the reminder logic
reads and writes (classification/recurrence/location metadata elided). -/
structure EventRow where
  event_id : String
  title : String
  description : Option String
  start_time : Option ℚ
  priority : String
  preparation_time_minutes : Option Int
  travel_time_minutes : Option Int
  optimal_reminder_time : Option ℚ
  last_reminded_at : Option ℚ
  reminder_count : ℕ
  completed : Int
  dismissed : Int
  suggested_contexts : Option (List String)
deriving DecidableEq, Repr

/-- `models.FeedbackLogDB` (context snapshot and timestamp elided). -/
structure LogRow where
  rule_id : Int
  user_action : String
deriving DecidableEq, Repr

/-- The persisted store backing the SQLAlchemy session. -/
structure Store where
  rules : List RuleRow
  params : List ParamRow
  events : List EventRow
  feedback_logs : List LogRow
deriving DecidableEq, Repr

/-! ## inference.py — RuleMatcher (`InferenceEngine._evaluate_rule`) -/

/-- `InferenceEngine._is_time_in_range` (inference.py lines 795-808); the
current time is minutes since midnight. -/
def isTimeInRange (tr : TimeRangeSpec) (cur : ℕ) : Bool :=
  match tr with
  | .malformed => false
  | .valid s e =>
    if s ≤ e then decide (s ≤ cur) && decide (cur ≤ e)
    else decide (s ≤ cur) || decide (cur ≤ e)

/-- Each check contributes (checks performed, successful checks). -/
def activityCheck (t : TriggerCondition) (ctx : UserContext) : ℕ × ℕ :=
  match t.activity with
  | none => (0, 0)
  | some a => (1, if strUpper ctx.activity_type == strUpper a then 1 else 0)

def timeCheck (t : TriggerCondition) (ctx : UserContext) : ℕ × ℕ :=
  match t.time_range with
  | none => (0, 0)
  | some tr => (1, if isTimeInRange tr (ctx.hour * 60 + ctx.minute) then 1 else 0)

def locationCheck (t : TriggerCondition) (ctx : UserContext) : ℕ × ℕ :=
  match t.location_vector with
  | none => (0, 0)
  | some expected =>
    (1, match ctx.location_vector with
      | some l => if l != "" && strLower l == strLower expected then 1 else 0
      | none => 0)

def bluetoothCheck (t : TriggerCondition) (ctx : UserContext) : ℕ × ℕ :=
  match t.car_bluetooth with
  | none => (0, 0)
  | some b => (1, if b == ctx.is_connected_to_car_bluetooth then 1 else 0)

def wifiDisconnected (ctx : UserContext) : Bool :=
  match ctx.wifi_ssid with
  | none => true
  | some w => w == ""

def wifiCheck (t : TriggerCondition) (ctx : UserContext) : ℕ × ℕ :=
  match t.wifi_ssid with
  | none => (0, 0)
  | some expected =>
    (1, match expected with
      | none => if wifiDisconnected ctx then 1 else 0
      | some e =>
        if e == "disconnected" || e == "not_connected" then
          if wifiDisconnected ctx then 1 else 0
        else
          match ctx.wifi_ssid with
          | none => 0
          | some w => if w != "" && strLower w == strLower e then 1 else 0)

def speedCheck (t : TriggerCondition) (ctx : UserContext) : ℕ × ℕ :=
  match t.min_speed with
  | none => (0, 0)
  | some ms => (1, if decide (ms ≤ ctx.speed) then 1 else 0)

def lookupStr : List (String × Int) → String → Option Int
  | [], _ => none
  | p :: rest, k => if p.1 == k then some p.2 else lookupStr rest k

/-- The `custom` block of `_evaluate_rule` (inference.py lines 772-780): a
custom pair is checked only when `additional_data` is truthy and carries
the key. -/
def customChecks (t : TriggerCondition) (ctx : UserContext) : ℕ × ℕ :=
  match t.custom with
  | none => (0, 0)
  | some pairs =>
    match ctx.additional_data with
    | none => (0, 0)
    | some ad =>
      if ad.isEmpty then (0, 0)
      else
        pairs.foldl (fun acc kv =>
          match lookupStr ad kv.1 with
          | none => acc
          | some v => (acc.1 + 1, acc.2 + if v == kv.2 then 1 else 0)) (0, 0)

/-- Result of `_evaluate_rule`; the internal counters are exposed as fields
(reasoning strings and the matched-conditions mapping are elided). -/
structure EvalResult where
  rule_matches : Bool
  match_score : ℚ
  successful_checks : ℕ
  total_checks : ℕ
deriving DecidableEq, Repr

/-- `InferenceEngine._evaluate_rule` (inference.py lines 704-793). -/
def evaluate_rule (t : TriggerCondition) (ctx : UserContext) : EvalResult :=
  let c1 := activityCheck t ctx
  let c2 := timeCheck t ctx
  let c3 := locationCheck t ctx
  let c4 := bluetoothCheck t ctx
  let c5 := wifiCheck t ctx
  let c6 := speedCheck t ctx
  let c7 := customChecks t ctx
  let total := c1.1 + c2.1 + c3.1 + c4.1 + c5.1 + c6.1 + c7.1
  let succ := c1.2 + c2.2 + c3.2 + c4.2 + c5.2 + c6.2 + c7.2
  let score : ℚ := if 0 < total then (succ : ℚ) / (total : ℚ) else 0
  { rule_matches := decide ((4 : ℚ)/5 ≤ score), match_score := score,
    successful_checks := succ, total_checks := total }

/-! ## inference.py — BayesianTimingOptimizer -/

def timePeriodOf (hour : ℕ) : String :=
  if 5 ≤ hour ∧ hour < 12 then "morning"
  else if 12 ≤ hour ∧ hour < 17 then "afternoon"
  else if 17 ≤ hour ∧ hour < 21 then "evening"
  else "night"

/-- `BayesianTimingOptimizer._generate_context_key`
(inference.py lines 171-200). -/
def generate_context_key (ctx : UserContext) : String :=
  strUpper ctx.activity_type ++ "_" ++ timePeriodOf ctx.hour ++ "_" ++
    (if ctx.weekday < 5 then "weekday" else "weekend") ++ "_" ++
    (match ctx.location_vector with
      | some l => if l == "" then "unknown" else l
      | none => "unknown")

/-- `LearningService._generate_context_key`
(learning_service.py lines 214-238); note it lower-cases and
underscore-joins the location, unlike the optimizer's key. -/
def learning_generate_context_key (ctx : UserContext) : String :=
  replaceChar (strUpper ctx.activity_type) ' ' '_' ++ "_" ++ timePeriodOf ctx.hour ++ "_" ++
    (if ctx.weekday < 5 then "weekday" else "weekend") ++ "_" ++
    replaceChar (strLower (match ctx.location_vector with
        | some l => if l == "" then "unknown" else l
        | none => "unknown")) ' ' '_'

def paramKeyMatches (p : ParamRow) (tt ck : String) (tw : Int) : Bool :=
  p.task_type == tt && p.context_key == ck && p.timing_window == tw

/-- `query(...).first()` on the Bayesian-parameters table. -/
def findParam (ps : List ParamRow) (tt ck : String) (tw : Int) : Option ParamRow :=
  ps.find? (fun p => paramKeyMatches p tt ck tw)

/-- In-place mutation of the first matching fetched row. -/
def updateFirstParam : List ParamRow → (ParamRow → Bool) → (ParamRow → ParamRow) →
    List ParamRow
  | [], _, _ => []
  | p :: rest, test, f =>
    if test p then f p :: rest else p :: updateFirstParam rest test f

/-- `BayesianTimingOptimizer._get_or_create_parameters`
(inference.py lines 140-169): an unseen triple is initialized with the
optimistic prior Beta(4, 2). -/
def get_or_create_parameters (s : Store) (task_type context_key : String)
    (timing_window : Int) : ParamRow × Store :=
  match findParam s.params task_type context_key timing_window with
  | some p => (p, s)
  | none =>
    let p : ParamRow :=
      { task_type := task_type, context_key := context_key, timing_window := timing_window,
        alpha := 4, beta := 2, total_triggers := 0 }
    (p, { s with params := s.params ++ [p] })

structure TimingFeedbackResult where
  old_confidence : ℚ
  new_confidence : ℚ
  alpha : ℚ
  beta : ℚ
deriving DecidableEq, Repr

/-- `BayesianTimingOptimizer.update_from_feedback`
(inference.py lines 97-138). -/
def update_from_feedback (s : Store) (task_type context_key : String) (timing_window : Int)
    (accepted : Bool) : TimingFeedbackResult × Store :=
  let pr := get_or_create_parameters s task_type context_key timing_window
  let p := pr.1
  let p2 :=
    if accepted then
      { p with alpha := p.alpha + 1, total_triggers := p.total_triggers + 1 }
    else
      { p with beta := p.beta + 1, total_triggers := p.total_triggers + 1 }
  let newParams := updateFirstParam pr.2.params
    (fun q => paramKeyMatches q task_type context_key timing_window) (fun _ => p2)
  let s2 := { pr.2 with params := newParams }
  ({ old_confidence := roundTo 3 (p.alpha / (p.alpha + p.beta)),
     new_confidence := roundTo 3 (p2.alpha / (p2.alpha + p2.beta)),
     alpha := p2.alpha, beta := p2.beta }, s2)

/-- One entry of the `all_windows` list built by `get_optimal_timing`
(`total_triggers`/`evidence_strength` feed only the elided explanation
string). -/
structure WindowOption where
  window : Int
  confidence : ℚ
  uncertainty : ℚ
  alpha : ℚ
  beta : ℚ
deriving DecidableEq, Repr

structure TimingResult where
  timing_window : Int
  confidence : ℚ
  meets_threshold : Bool
  all_windows : List WindowOption
  context_key : String
deriving DecidableEq, Repr

def TIMING_WINDOWS : List Int := [60, 30, 10]

/-- Python `max(l, key=...)` with the UCB key (first maximum wins); the
empty case is unreachable because `TIMING_WINDOWS` is non-empty. -/
def maxByUCB (l : List WindowOption) : WindowOption :=
  match l with
  | [] => { window := 0, confidence := 0, uncertainty := 0, alpha := 0, beta := 0 }
  | x :: rest =>
    rest.foldl (fun b o =>
      if b.confidence + 1/2 * b.uncertainty < o.confidence + 1/2 * o.uncertainty then o else b) x

/-- The body of the `for window in self.TIMING_WINDOWS` loop of
`get_optimal_timing` (inference.py lines 45-76). -/
def timingWindowStep (sqrtQ : ℚ → ℚ) (task_type context_key : String)
    (acc : List WindowOption × Store) (w : Int) : List WindowOption × Store :=
  let pr := get_or_create_parameters acc.2 task_type context_key w
  let p := pr.1
  let confidence := p.alpha / (p.alpha + p.beta)
  let total := p.alpha + p.beta
  let variance := p.alpha * p.beta / (total ^ 2 * (total + 1))
  (acc.1 ++ [{ window := w, confidence := roundTo 3 confidence,
               uncertainty := roundTo 3 (sqrtQ variance),
               alpha := p.alpha, beta := p.beta }], pr.2)

/-- `BayesianTimingOptimizer.get_optimal_timing` (inference.py lines
35-95).  `sqrtQ` is the uninterpreted model of `math.sqrt`. -/
def get_optimal_timing (sqrtQ : ℚ → ℚ) (s : Store) (task_type : String) (ctx : UserContext) :
    TimingResult × Store :=
  let context_key := generate_context_key ctx
  let folded := TIMING_WINDOWS.foldl (timingWindowStep sqrtQ task_type context_key) ([], s)
  let best := maxByUCB folded.1
  ({ timing_window := best.window, confidence := best.confidence,
     meets_threshold := decide ((3 : ℚ)/5 ≤ best.confidence),
     all_windows := folded.1, context_key := context_key }, folded.2)

/-! ## inference.py — ReminderPolicy (`_should_remind_about_event`) -/

/-- Outcome of one reminder evaluation: the eligibility flag, the
confidence, and the (possibly mutated) event row that the code commits
(reasoning strings elided). -/
structure RemindDecision where
  should : Bool
  confidence : ℚ
  event : EventRow
deriving DecidableEq, Repr

/-- The suggested-contexts test of the low-priority branch
(inference.py lines 537-542): substring match of each suggestion against
`str(location).lower()`. -/
def contextMatchesLow (e : EventRow) (ctx : UserContext) : Bool :=
  match e.suggested_contexts with
  | none => false
  | some l => l.any (fun sgt =>
      strContains (strLower (stringOr ctx.location_vector)) (strLower sgt))

/-- `InferenceEngine._should_remind_about_event`
(inference.py lines 430-555).  Times are rational seconds; `now` is the
`datetime.utcnow()` of the enclosing request. -/
def should_remind_about_event (e : EventRow) (ctx : UserContext) (now : ℚ) : RemindDecision :=
  let st := e.start_time.getD 0
  let minutes_until : Int := pythonInt ((st - now) / 60)
  if e.priority == "high" then
    match e.optimal_reminder_time with
    | some ort =>
      if ort ≤ now then
        let min_interval_hours : ℚ :=
          if minutes_until ≤ 30 then 1/4
          else if minutes_until ≤ 120 then 1/2
          else 2
        let blocked :=
          match e.last_reminded_at with
          | some lr => decide ((now - lr) / 3600 < min_interval_hours)
          | none => false
        if blocked then ⟨false, 0, e⟩
        else
          ⟨true, 19/20,
            { e with last_reminded_at := some now, reminder_count := e.reminder_count + 1 }⟩
      else ⟨false, 0, e⟩
    | none => ⟨false, 0, e⟩
  else if e.priority == "medium" then
    match e.optimal_reminder_time with
    | some ort =>
      if ort ≤ now then
        let is_free :=
          strUpper ctx.activity_type == "STILL" &&
            (ctx.location_vector == some "home" || ctx.location_vector == some "work")
        if is_free || minutes_until ≤ 60 then
          let blocked :=
            match e.last_reminded_at with
            | some lr => decide ((now - lr) / 3600 < 3)
            | none => false
          if blocked then ⟨false, 0, e⟩
          else
            ⟨true, if is_free then 3/4 else 13/20,
              { e with last_reminded_at := some now, reminder_count := e.reminder_count + 1 }⟩
        else ⟨false, 0, e⟩
      else ⟨false, 0, e⟩
    | none => ⟨false, 0, e⟩
  else
    if 0 < e.reminder_count then ⟨false, 0, e⟩
    else
      let ortBlocked :=
        match e.optimal_reminder_time with
        | some ort => decide (15 < |ort - now| / 60)
        | none => false
      if ortBlocked then ⟨false, 0, e⟩
      else
        if minutes_until ≤ 30 || contextMatchesLow e ctx then
          ⟨true, 3/5,
            { e with last_reminded_at := some now, reminder_count := e.reminder_count + 1 }⟩
        else ⟨false, 0, e⟩

/-! ## inference.py — InferenceEngine -/

/-- One entry of a task's `timing_options` list. -/
structure TimingOptionD where
  window : Int
  confidence : ℚ
  expected_reward : ℚ
deriving DecidableEq, Repr

/-- `models.InferredTask` as constructed by `infer_tasks` (description,
reasoning, matched-conditions and search metadata are elided; the
wall-clock part of the search metadata is not modellable and no claim
reads the rest). -/
structure InferredTask where
  rule_id : Int
  task_name : String
  confidence : ℚ
  optimal_timing_window : Option Int
  timing_confidence : Option ℚ
  timing_options : List TimingOptionD
deriving DecidableEq, Repr

/-- The upcoming-events query of `_get_calendar_reminders`
(inference.py lines 369-375). -/
def upcomingFilter (e : EventRow) (now : ℚ) : Bool :=
  e.start_time.isSome && decide (now ≤ e.start_time.getD 0) &&
    decide (e.start_time.getD 0 ≤ now + 86400) && e.completed == 0 && e.dismissed == 0

/-- The body of the `for event in upcoming_events` loop of
`_get_calendar_reminders` (inference.py lines 377-426); `s` supplies the
rule table for the linked-rule lookup. -/
def calendarStep (s : Store) (ctx : UserContext) (now : ℚ)
    (acc : List InferredTask × List EventRow) (e : EventRow) :
    List InferredTask × List EventRow :=
  if upcomingFilter e now then
    let d := should_remind_about_event e ctx now
    if d.should then
      match s.rules.find? (fun r => r.calendar_event_id == some e.event_id) with
      | some rule =>
        let minutes_until : Int := pythonInt ((e.start_time.getD 0 - now) / 60)
        let baseOpts := ([60, 30, 15, 10] : List Int).filterMap (fun w =>
          if w ≤ minutes_until then
            some ({ window := w, confidence := d.confidence * (1 - (w : ℚ) / 120),
                    expected_reward := d.confidence * (1 - (w : ℚ) / 120) } : TimingOptionD)
          else none)
        let topts :=
          if baseOpts.isEmpty then
            [({ window := minutes_until, confidence := d.confidence,
                expected_reward := d.confidence } : TimingOptionD)]
          else baseOpts
        (acc.1 ++ [{ rule_id := rule.id, task_name := e.title, confidence := d.confidence,
                     optimal_timing_window := some minutes_until,
                     timing_confidence := some d.confidence,
                     timing_options := topts }],
         acc.2 ++ [d.event])
      | none => (acc.1, acc.2 ++ [d.event])
    else (acc.1, acc.2 ++ [d.event])
  else (acc.1, acc.2 ++ [e])

/-- `InferenceEngine._get_calendar_reminders` (inference.py lines 358-428).
Returns the calendar reminder tasks and the store with the committed event
mutations. -/
def get_calendar_reminders (s : Store) (ctx : UserContext) (now : ℚ) :
    List InferredTask × Store :=
  let folded := s.events.foldl (calendarStep s ctx now) ([], [])
  (folded.1, { s with events := folded.2 })

/-- Python truthiness of `task.timing_confidence or 1.0`
(both `None` and `0.0` are falsy). -/
def timingConfOrOne (t : InferredTask) : ℚ :=
  match t.timing_confidence with
  | some q => if q == 0 then 1 else q
  | none => 1

def sortKey (t : InferredTask) : ℚ := t.confidence * timingConfOrOne t

/-- Stable descending insertion by `sortKey`; together with `sortTasks`
this models Python's stable `list.sort(key=..., reverse=True)`. -/
def insertTaskDesc (a : InferredTask) : List InferredTask → List InferredTask
  | [] => [a]
  | b :: rest =>
    if decide (sortKey a ≤ sortKey b) then b :: insertTaskDesc a rest else a :: b :: rest

def sortTasks (l : List InferredTask) : List InferredTask :=
  l.foldl (fun acc t => insertTaskDesc t acc) []

/-- The `chosen_timings` dict of `_apply_search_optimization` (a later
schedule entry for the same task id overwrites an earlier one, as in a dict
comprehension); `None` is returned both for an absent id and for a
recorded skip. -/
def lookupLast (l : List (Int × Option Int)) (k : Int) : Option (Option Int) :=
  (l.reverse.find? (fun p => p.1 == k)).map Prod.snd

/-- `InferenceEngine._apply_search_optimization`
(inference.py lines 570-671), the non-raising path of its `try` block
(this pure model cannot raise, so the greedy-sort `except` path is dead). -/
def apply_search_optimization (tasks : List InferredTask) : List InferredTask :=
  let candidates := tasks.map (fun t =>
    let opts : List TaskOption :=
      match t.timing_options with
      | [] =>
        [{ timing_window_minutes :=
             (match t.optimal_timing_window with
               | some w => if w == 0 then 30 else w
               | none => 30),
           expected_reward := t.confidence, context_match_score := 1 }]
      | l =>
        l.map (fun o => { timing_window_minutes := o.window,
                          expected_reward := o.expected_reward,
                          context_match_score := o.confidence })
    ({ task_id := t.rule_id, title := t.task_name, priority_weight := t.confidence,
       options := opts } : TaskCandidate))
  let sr := optimize_schedule candidates
  let updated := tasks.filterMap (fun t =>
    match lookupLast sr.schedule t.rule_id with
    | some (some w) =>
      let tc :=
        match t.timing_options.find? (fun o => o.window == w) with
        | some o => some o.confidence
        | none => t.timing_confidence
      some { t with optimal_timing_window := some w, timing_confidence := tc }
    | _ => none)
  sortTasks updated

/-- The body of the `for rule in active_rules` loop of `infer_tasks`
(inference.py lines 286-343). -/
def inferRuleStep (sqrtQ : ℚ → ℚ) (ctx : UserContext) (acc : List InferredTask × Store)
    (rule : RuleRow) : List InferredTask × Store :=
  if truthyOptStr rule.calendar_event_id then acc
  else
    let m := evaluate_rule rule.trigger_condition ctx
    if m.rule_matches then
      let base := rule.current_probability_weight * m.match_score
      if (3 : ℚ)/5 ≤ base then
        let tr := get_optimal_timing sqrtQ acc.2 rule.task_name ctx
        if decide ((7 : ℚ)/10 ≤ base) || tr.1.meets_threshold then
          let topts := tr.1.all_windows.map (fun w =>
            ({ window := w.window, confidence := w.confidence,
               expected_reward := base * w.confidence } : TimingOptionD))
          (acc.1 ++ [{ rule_id := rule.id, task_name := rule.task_name,
                       confidence := roundTo 2 base,
                       optimal_timing_window := some tr.1.timing_window,
                       timing_confidence := some tr.1.confidence,
                       timing_options := topts }], tr.2)
        else (acc.1, tr.2)
      else acc
    else acc

/-- `InferenceEngine.infer_tasks` (inference.py lines 272-356); the rule
loop threads the store because `get_optimal_timing` creates missing belief
rows, and the calendar pass commits event mutations. -/
def infer_tasks (sqrtQ : ℚ → ℚ) (enable_search : Bool) (s : Store) (ctx : UserContext)
    (now : ℚ) : List InferredTask × Store :=
  let active := s.rules.filter (fun r => r.is_active == 1)
  let ruleFold := active.foldl (inferRuleStep sqrtQ ctx) ([], s)
  let cal := get_calendar_reminders ruleFold.2 ctx now
  let allTasks := ruleFold.1 ++ cal.1
  let final :=
    if enable_search && decide (1 < allTasks.length) then
      apply_search_optimization allTasks
    else
      sortTasks allTasks
  (final, cal.2)

def updateFirstRule : List RuleRow → Int → (RuleRow → RuleRow) → List RuleRow
  | [], _, _ => []
  | r :: rest, rid, f =>
    if r.id == rid then f r :: rest else r :: updateFirstRule rest rid f

structure ApplyFeedbackResult where
  success : Bool
  old_weight : ℚ
  new_weight : ℚ
deriving DecidableEq, Repr

/-- `InferenceEngine.apply_feedback` (inference.py lines 822-891): unknown
rule id and invalid outcome return an error with no store mutation; on
success the rule weight is clamped-updated, a feedback log is appended,
and — when a context is supplied — the Beta belief for the fixed
30-minute window is updated through the optimizer. -/
def apply_feedback (s : Store) (rule_id : Int) (outcome : String)
    (ctxOpt : Option UserContext) : ApplyFeedbackResult × Store :=
  match s.rules.find? (fun r => r.id == rule_id) with
  | none => ({ success := false, old_weight := 0, new_weight := 0 }, s)
  | some rule =>
    let old_weight := rule.current_probability_weight
    if outcome == "positive" || outcome == "negative" then
      let accepted := outcome == "positive"
      let nw := if accepted then min 1 (old_weight + 1/20) else max 0 (old_weight - 1/10)
      let newRules := updateFirstRule s.rules rule_id
        (fun r => { r with current_probability_weight := nw })
      let s1 := { s with rules := newRules }
      let newLog : LogRow :=
        { rule_id := rule_id, user_action := if accepted then "accepted" else "rejected" }
      let s2 := { s1 with feedback_logs := s1.feedback_logs ++ [newLog] }
      let s3 :=
        match ctxOpt with
        | some ctx =>
          (update_from_feedback s2 rule.task_name (generate_context_key ctx) 30 accepted).2
        | none => s2
      ({ success := true, old_weight := roundTo 2 old_weight, new_weight := roundTo 2 nw }, s3)
    else
      ({ success := false, old_weight := 0, new_weight := 0 }, s)

/-! ## learning_service.py — LearningService -/

structure BetaUpdateResult where
  alpha : ℚ
  beta : ℚ
  old_confidence : ℚ
  new_confidence : ℚ
  total_feedback : Int
deriving DecidableEq, Repr

/-- `LearningService._update_beta_distribution`
(learning_service.py lines 130-186): an unseen triple is initialized with
the uniform prior Beta(1, 1), then the feedback increment is applied. -/
def update_beta_distribution (s : Store) (task_type context_key : String) (timing_window : Int)
    (accepted : Bool) : BetaUpdateResult × Store :=
  let found := findParam s.params task_type context_key timing_window
  let p :=
    match found with
    | some p => p
    | none =>
      { task_type := task_type, context_key := context_key, timing_window := timing_window,
        alpha := 1, beta := 1, total_triggers := 0 }
  let s1 :=
    match found with
    | some _ => s
    | none => { s with params := s.params ++ [p] }
  let p2 :=
    if accepted then
      { p with alpha := p.alpha + 1, total_triggers := p.total_triggers + 1 }
    else
      { p with beta := p.beta + 1, total_triggers := p.total_triggers + 1 }
  let newParams := updateFirstParam s1.params
    (fun q => paramKeyMatches q task_type context_key timing_window) (fun _ => p2)
  ({ alpha := p2.alpha, beta := p2.beta,
     old_confidence := roundTo 3 (p.alpha / (p.alpha + p.beta)),
     new_confidence := roundTo 3 (p2.alpha / (p2.alpha + p2.beta)),
     total_feedback := pythonInt (p2.alpha + p2.beta - 2) },
   { s1 with params := newParams })

structure RuleWeightResult where
  old_weight : ℚ
  new_weight : ℚ
  found : Bool
deriving DecidableEq, Repr

/-- `LearningService._update_rule_weight`
(learning_service.py lines 188-212): an unknown rule id reports old/new
weights 0.0/0.0 with `found: False` and mutates nothing — it does NOT
abort the enclosing feedback call. -/
def update_rule_weight (s : Store) (rule_id : Int) (accepted : Bool) :
    RuleWeightResult × Store :=
  match s.rules.find? (fun r => r.id == rule_id) with
  | none => ({ old_weight := 0, new_weight := 0, found := false }, s)
  | some rule =>
    let old := rule.current_probability_weight
    let nw := if accepted then min 1 (old + 1/20) else max 0 (old - 1/10)
    ({ old_weight := roundTo 2 old, new_weight := roundTo 2 nw, found := true },
     { s with rules :=
        updateFirstRule s.rules rule_id (fun r => { r with current_probability_weight := nw }) })

structure RecordFeedbackResult where
  success : Bool
  context_key : String
  alpha : ℚ
  beta : ℚ
  new_confidence : ℚ
  confidence_change : ℚ
  old_weight : ℚ
  new_weight : ℚ
  rule_found : Bool
  total_feedback_count : Int
deriving DecidableEq, Repr

/-- `LearningService.record_feedback` (learning_service.py lines 33-128):
validates the feedback string first (invalid → error, no mutation), then
updates the Beta distribution, appends a feedback log, and updates the
rule weight — whether or not the task id exists. -/
def record_feedback (s : Store) (task_id : Int) (task_type : String) (ctx : UserContext)
    (timing_window : Int) (feedback : String) : RecordFeedbackResult × Store :=
  if !(strLower feedback == "accept" || strLower feedback == "reject" ||
       strLower feedback == "accepted" || strLower feedback == "rejected") then
    ({ success := false, context_key := "", alpha := 0, beta := 0, new_confidence := 0,
       confidence_change := 0, old_weight := 0, new_weight := 0, rule_found := false,
       total_feedback_count := 0 }, s)
  else
    let accepted := strLower feedback == "accept" || strLower feedback == "accepted"
    let context_key := learning_generate_context_key ctx
    let bu := update_beta_distribution s task_type context_key timing_window accepted
    let newLog : LogRow :=
      { rule_id := task_id, user_action := if accepted then "accepted" else "rejected" }
    let s2 := { bu.2 with feedback_logs := bu.2.feedback_logs ++ [newLog] }
    let ru := update_rule_weight s2 task_id accepted
    ({ success := true, context_key := context_key, alpha := bu.1.alpha, beta := bu.1.beta,
       new_confidence := bu.1.new_confidence,
       confidence_change := roundTo 3 (bu.1.new_confidence - bu.1.old_confidence),
       old_weight := ru.1.old_weight, new_weight := ru.1.new_weight,
       rule_found := ru.1.found, total_feedback_count := bu.1.total_feedback }, ru.2)

/-! ## Claim theorems for the reminder policy -/

/-- The claim's minimum re-fire gap, in seconds: 15 minutes when the event
starts in at most 30 minutes, 30 minutes when in at most 120 minutes,
otherwise 120 minutes. -/
def highRefireGapSeconds (minutes_until : Int) : ℚ :=
  if minutes_until ≤ 30 then 900 else if minutes_until ≤ 120 then 1800 else 7200

/-- C5: for a high-priority event at or past its optimal reminder time that
has been reminded before, re-fire eligibility holds exactly when the time
since the last reminder is at least the proximity-scaled gap (15/30/120
minutes), and an eligible evaluation carries confidence 0.95. -/
theorem high_priority_refire (e : EventRow) (ctx : UserContext) (now st t l : ℚ)
    (hp : e.priority = "high") (hst : e.start_time = some st)
    (hort : e.optimal_reminder_time = some t) (hnow : t ≤ now)
    (hlast : e.last_reminded_at = some l) :
    ((should_remind_about_event e ctx now).should = true ↔
      highRefireGapSeconds (pythonInt ((st - now) / 60)) ≤ now - l) ∧
    ((should_remind_about_event e ctx now).should = true →
      (should_remind_about_event e ctx now).confidence = 19/20) := by
  have hb : (e.priority == "high") = true := by rw [hp]; rfl
  have hdiv : ∀ h : ℚ, ((now - l) / 3600 < h ↔ now - l < h * 3600) := by
    intro h
    rw [div_lt_iff₀ (by norm_num : (0:ℚ) < 3600)]
  have hgap : highRefireGapSeconds (pythonInt ((st - now) / 60)) =
      (if pythonInt ((st - now) / 60) ≤ 30 then (1/4 : ℚ)
       else if pythonInt ((st - now) / 60) ≤ 120 then 1/2 else 2) * 3600 := by
    unfold highRefireGapSeconds
    split_ifs <;> norm_num
  by_cases hblk : (now - l) / 3600 <
      (if pythonInt ((st - now) / 60) ≤ 30 then (1/4 : ℚ)
       else if pythonInt ((st - now) / 60) ≤ 120 then 1/2 else 2)
  · have hres : should_remind_about_event e ctx now = ⟨false, 0, e⟩ := by
      simp only [should_remind_about_event, hst, hort, hlast, hb, Option.getD_some,
        if_true, decide_eq_true_eq]
      rw [if_pos hnow, if_pos hblk]
    rw [hres]
    constructor
    · constructor
      · intro h
        exact absurd h (by simp)
      · intro hge
        exfalso
        rw [hdiv] at hblk
        rw [hgap] at hge
        linarith
    · intro h
      exact absurd h (by simp)
  · have hres : should_remind_about_event e ctx now =
        ⟨true, 19/20,
          { e with last_reminded_at := some now, reminder_count := e.reminder_count + 1 }⟩ := by
      simp only [should_remind_about_event, hst, hort, hlast, hb, Option.getD_some,
        if_true, decide_eq_true_eq]
      rw [if_pos hnow, if_neg hblk]
    rw [hres]
    refine ⟨⟨fun _ => ?_, fun _ => rfl⟩, fun _ => rfl⟩
    rw [hdiv] at hblk
    rw [hgap]
    linarith [not_lt.mp hblk]

/-- The claim's concrete high-priority scenario, with `now = 0` seconds:
start in 20 minutes, optimal reminder time 5 minutes past, last reminded
`last` seconds ago. -/
def c5Event (last : ℚ) : EventRow :=
  { event_id := "e1", title := "Standup", description := none, start_time := some 1200,
    priority := "high", preparation_time_minutes := none, travel_time_minutes := none,
    optimal_reminder_time := some (-300), last_reminded_at := some last,
    reminder_count := 1, completed := 0, dismissed := 0, suggested_contexts := none }

def witnessCtx : UserContext :=
  { hour := 9, minute := 0, weekday := 1, activity_type := "STILL", speed := 0,
    is_connected_to_car_bluetooth := false, wifi_ssid := none,
    location_vector := some "home", additional_data := none }

theorem high_priority_refire_witness :
    (should_remind_about_event (c5Event (-600)) witnessCtx 0).should = false ∧
      (should_remind_about_event (c5Event (-960)) witnessCtx 0).should = true ∧
      (should_remind_about_event (c5Event (-960)) witnessCtx 0).confidence = 19/20 := by
  have h1 := high_priority_refire (c5Event (-600)) witnessCtx 0 1200 (-300) (-600)
    rfl rfl rfl (by norm_num) rfl
  have h2 := high_priority_refire (c5Event (-960)) witnessCtx 0 1200 (-300) (-960)
    rfl rfl rfl (by norm_num) rfl
  have hgap : highRefireGapSeconds (pythonInt ((1200 - 0) / 60)) = 900 := by
    norm_num [pythonInt, highRefireGapSeconds]
  refine ⟨?_, ?_, ?_⟩
  · cases hsh : (should_remind_about_event (c5Event (-600)) witnessCtx 0).should
    · rfl
    · exfalso
      have hcontra := h1.1.mp hsh
      rw [hgap] at hcontra
      norm_num at hcontra
  · refine h2.1.mpr ?_
    rw [hgap]
    norm_num
  · exact h2.2 (h2.1.mpr (by rw [hgap]; norm_num))

/-- C6: a low-priority event is eligible only while its reminder count is
zero and at least one of (within 15 minutes of the optimal reminder time,
at most 30 minutes to the event, suggested-context match) holds; an
eligible result carries confidence 0.60; once the reminder count reaches 1
the event is never eligible again, regardless of context. -/
theorem low_priority_once (e : EventRow) (ctx : UserContext) (now : ℚ)
    (hp : e.priority = "low") :
    ((should_remind_about_event e ctx now).should = true →
      e.reminder_count = 0 ∧
        ((∃ t, e.optimal_reminder_time = some t ∧ |t - now| ≤ 900) ∨
          pythonInt ((e.start_time.getD 0 - now) / 60) ≤ 30 ∨
          contextMatchesLow e ctx = true) ∧
        (should_remind_about_event e ctx now).confidence = 3/5) ∧
    (1 ≤ e.reminder_count → (should_remind_about_event e ctx now).should = false) := by
  have hb1 : (e.priority == "high") = false := by rw [hp]; rfl
  have hb2 : (e.priority == "medium") = false := by rw [hp]; rfl
  have hform : should_remind_about_event e ctx now =
      (if 0 < e.reminder_count then (⟨false, 0, e⟩ : RemindDecision)
       else if (match e.optimal_reminder_time with
                 | some ort => decide (15 < |ort - now| / 60)
                 | none => false) = true then ⟨false, 0, e⟩
       else if (decide (pythonInt ((e.start_time.getD 0 - now) / 60) ≤ 30) ||
                contextMatchesLow e ctx) = true then
         ⟨true, 3/5,
           { e with last_reminded_at := some now, reminder_count := e.reminder_count + 1 }⟩
       else ⟨false, 0, e⟩) := by
    simp only [should_remind_about_event, hb1, hb2, Bool.false_eq_true, if_false]
  rw [hform]
  constructor
  · intro hsh
    by_cases h1 : 0 < e.reminder_count
    · rw [if_pos h1] at hsh
      exact absurd hsh (by simp)
    · rw [if_neg h1] at hsh ⊢
      by_cases h2 : (match e.optimal_reminder_time with
          | some ort => decide (15 < |ort - now| / 60)
          | none => false) = true
      · rw [if_pos h2] at hsh
        exact absurd hsh (by simp)
      · rw [if_neg h2] at hsh ⊢
        by_cases h3 : (decide (pythonInt ((e.start_time.getD 0 - now) / 60) ≤ 30) ||
            contextMatchesLow e ctx) = true
        · rw [if_pos h3] at hsh ⊢
          refine ⟨by omega, ?_, rfl⟩
          rcases Bool.or_eq_true_iff.mp h3 with hmu | hcm
          · exact Or.inr (Or.inl (of_decide_eq_true hmu))
          · exact Or.inr (Or.inr hcm)
        · rw [if_neg h3] at hsh
          exact absurd hsh (by simp)
  · intro hcnt
    rw [if_pos (by omega : 0 < e.reminder_count)]

/-- A low-priority event already reminded once. -/
def c6EventDone : EventRow :=
  { event_id := "e2", title := "Water plants", description := none, start_time := some 600,
    priority := "low", preparation_time_minutes := none, travel_time_minutes := none,
    optimal_reminder_time := some 0, last_reminded_at := some (-60),
    reminder_count := 1, completed := 0, dismissed := 0,
    suggested_contexts := some ["home"] }

/-- A fresh low-priority event starting in 10 minutes. -/
def c6EventFresh : EventRow :=
  { event_id := "e3", title := "Stretch", description := none, start_time := some 600,
    priority := "low", preparation_time_minutes := none, travel_time_minutes := none,
    optimal_reminder_time := none, last_reminded_at := none,
    reminder_count := 0, completed := 0, dismissed := 0, suggested_contexts := none }

theorem low_priority_once_witness :
    (should_remind_about_event c6EventDone witnessCtx 0).should = false ∧
      (should_remind_about_event c6EventFresh witnessCtx 0).should = true ∧
      c6EventFresh.reminder_count = 0 ∧
      (should_remind_about_event c6EventFresh witnessCtx 0).confidence = 3/5 := by
  have hdone := (low_priority_once c6EventDone witnessCtx 0 rfl).2 (by norm_num [c6EventDone])
  have hfresh : (should_remind_about_event c6EventFresh witnessCtx 0).should = true := by
    norm_num [should_remind_about_event, c6EventFresh, witnessCtx, pythonInt]
    rfl
  have hconf := ((low_priority_once c6EventFresh witnessCtx 0 rfl).1 hfresh).2.2
  exact ⟨hdone, hfresh, rfl, hconf⟩

/-! ## Claim theorems for belief initialization (C2) -/

def emptyStore : Store := ⟨[], [], [], []⟩

/-- C2 counterexample: for a triple never seen before, the timing
optimizer's get-or-create path initializes Beta(4, 2) — confidence 2/3 —
while the learning service's feedback-update path initializes Beta(1, 1) —
pre-feedback confidence 1/2.  The two paths do NOT assign the same fixed
prior, refuting the claim at this concrete input. -/
theorem prior_divergence_counterexample :
    (get_or_create_parameters emptyStore "T" "K" 30).1.alpha = 4 ∧
      (get_or_create_parameters emptyStore "T" "K" 30).1.beta = 2 ∧
      (get_or_create_parameters emptyStore "T" "K" 30).1.alpha /
        ((get_or_create_parameters emptyStore "T" "K" 30).1.alpha +
          (get_or_create_parameters emptyStore "T" "K" 30).1.beta) = 2/3 ∧
      (update_beta_distribution emptyStore "T" "K" 30 true).1.old_confidence = 1/2 ∧
      ¬ ((2 : ℚ)/3 = 1/2) := by
  refine ⟨rfl, rfl, ?_, ?_, by norm_num⟩
  · norm_num [get_or_create_parameters, emptyStore, findParam]
  · norm_num [update_beta_distribution, emptyStore, findParam, roundTo]

/-- C2 amended: for every unseen (task type, context key, window) triple,
the optimizer's get-or-create path initializes the fixed prior Beta(4, 2)
(confidence 2/3), while the learning service's feedback-update path
initializes the fixed prior Beta(1, 1) (pre-feedback confidence 1/2) —
so the pre-feedback confidence depends on which path first created the
triple. -/
theorem prior_by_path (s : Store) (tt ck : String) (tw : Int)
    (h : findParam s.params tt ck tw = none) :
    ((get_or_create_parameters s tt ck tw).1.alpha = 4 ∧
      (get_or_create_parameters s tt ck tw).1.beta = 2 ∧
      (get_or_create_parameters s tt ck tw).1.alpha /
        ((get_or_create_parameters s tt ck tw).1.alpha +
          (get_or_create_parameters s tt ck tw).1.beta) = 2/3) ∧
    (∀ accepted, (update_beta_distribution s tt ck tw accepted).1.old_confidence = 1/2) := by
  constructor
  · unfold get_or_create_parameters
    rw [h]
    norm_num
  · intro accepted
    unfold update_beta_distribution
    rw [h]
    norm_num [roundTo]

theorem prior_by_path_witness :
    ((get_or_create_parameters emptyStore "Gym" "STILL_morning_weekday_home" 60).1.alpha = 4 ∧
      (get_or_create_parameters emptyStore "Gym" "STILL_morning_weekday_home" 60).1.beta = 2 ∧
      (get_or_create_parameters emptyStore "Gym" "STILL_morning_weekday_home" 60).1.alpha /
        ((get_or_create_parameters emptyStore "Gym" "STILL_morning_weekday_home" 60).1.alpha +
          (get_or_create_parameters emptyStore "Gym" "STILL_morning_weekday_home" 60).1.beta) =
          2/3) ∧
      (update_beta_distribution emptyStore "Gym" "STILL_morning_weekday_home" 60
        true).1.old_confidence = 1/2 := by
  have h := prior_by_path emptyStore "Gym" "STILL_morning_weekday_home" 60 rfl
  exact ⟨h.1, h.2 true⟩

/-! ## Claim theorems for repeated feedback (C7) -/

/-- k consecutive feedback updates through
`BayesianTimingOptimizer.update_from_feedback`. -/
def iterate_optimizer_feedback (tt ck : String) (tw : Int) (accepted : Bool) :
    ℕ → Store → Store
  | 0, s => s
  | k + 1, s =>
    (update_from_feedback (iterate_optimizer_feedback tt ck tw accepted k s)
      tt ck tw accepted).2

/-- k consecutive feedback updates through
`LearningService._update_beta_distribution`. -/
def iterate_learning_feedback (tt ck : String) (tw : Int) (accepted : Bool) :
    ℕ → Store → Store
  | 0, s => s
  | k + 1, s =>
    (update_beta_distribution (iterate_learning_feedback tt ck tw accepted k s)
      tt ck tw accepted).2

/-- The posterior-mean confidence of a stored belief triple. -/
def storeConfidence (s : Store) (tt ck : String) (tw : Int) : ℚ :=
  match findParam s.params tt ck tw with
  | some p => p.alpha / (p.alpha + p.beta)
  | none => 0

theorem findParam_update_some {ps : List ParamRow} {tt ck : String} {tw : Int} {p : ParamRow}
    (h : findParam ps tt ck tw = some p) (f : ParamRow → ParamRow)
    (hf : paramKeyMatches (f p) tt ck tw = true) :
    findParam (updateFirstParam ps (fun q => paramKeyMatches q tt ck tw) f) tt ck tw =
      some (f p) := by
  induction ps with
  | nil => exact absurd h (by simp [findParam])
  | cons q rest ih =>
    by_cases hq : paramKeyMatches q tt ck tw = true
    · have hpq : q = p := by
        have hfind : findParam (q :: rest) tt ck tw = some q :=
          @List.find?_cons_of_pos ParamRow (fun r => paramKeyMatches r tt ck tw) q rest hq
        rw [hfind] at h
        exact Option.some.inj h
      subst hpq
      unfold updateFirstParam
      rw [if_pos hq]
      exact @List.find?_cons_of_pos ParamRow (fun r => paramKeyMatches r tt ck tw) (f q) rest hf
    · have hrest : findParam rest tt ck tw = some p := by
        have hskip : findParam (q :: rest) tt ck tw = findParam rest tt ck tw :=
          @List.find?_cons_of_neg ParamRow (fun r => paramKeyMatches r tt ck tw) q rest hq
        rwa [hskip] at h
      unfold updateFirstParam
      rw [if_neg hq]
      have hskip2 : findParam (q :: updateFirstParam rest (fun q => paramKeyMatches q tt ck tw) f)
          tt ck tw =
          findParam (updateFirstParam rest (fun q => paramKeyMatches q tt ck tw) f) tt ck tw :=
        @List.find?_cons_of_neg ParamRow (fun r => paramKeyMatches r tt ck tw) q _ hq
      rw [hskip2]
      exact ih hrest

theorem paramKeyMatches_mk {p : ParamRow} {tt ck : String} {tw : Int}
    (h : paramKeyMatches p tt ck tw = true) (a b : ℚ) (n : ℕ) :
    paramKeyMatches { p with alpha := a, beta := b, total_triggers := n } tt ck tw = true := h

theorem update_from_feedback_found {s : Store} {tt ck : String} {tw : Int} {p : ParamRow}
    (h : findParam s.params tt ck tw = some p) (accepted : Bool) :
    findParam ((update_from_feedback s tt ck tw accepted).2).params tt ck tw =
      some (if accepted then
              { p with alpha := p.alpha + 1, total_triggers := p.total_triggers + 1 }
            else
              { p with beta := p.beta + 1, total_triggers := p.total_triggers + 1 }) := by
  have hkey : paramKeyMatches p tt ck tw = true :=
    @List.find?_some ParamRow (fun r => paramKeyMatches r tt ck tw) p s.params h
  unfold update_from_feedback get_or_create_parameters
  rw [h]
  cases accepted with
  | false =>
    simp only [Bool.false_eq_true, if_false]
    exact findParam_update_some h _ hkey
  | true =>
    simp only [if_true]
    exact findParam_update_some h _ hkey

theorem update_beta_distribution_found {s : Store} {tt ck : String} {tw : Int} {p : ParamRow}
    (h : findParam s.params tt ck tw = some p) (accepted : Bool) :
    findParam ((update_beta_distribution s tt ck tw accepted).2).params tt ck tw =
      some (if accepted then
              { p with alpha := p.alpha + 1, total_triggers := p.total_triggers + 1 }
            else
              { p with beta := p.beta + 1, total_triggers := p.total_triggers + 1 }) := by
  have hkey : paramKeyMatches p tt ck tw = true :=
    @List.find?_some ParamRow (fun r => paramKeyMatches r tt ck tw) p s.params h
  unfold update_beta_distribution
  rw [h]
  cases accepted with
  | false =>
    simp only [Bool.false_eq_true, if_false]
    exact findParam_update_some h _ hkey
  | true =>
    simp only [if_true]
    exact findParam_update_some h _ hkey

theorem iterate_optimizer_row {s : Store} {tt ck : String} {tw : Int} {p : ParamRow}
    (h : findParam s.params tt ck tw = some p) (accepted : Bool) (k : ℕ) :
    findParam ((iterate_optimizer_feedback tt ck tw accepted k s).params) tt ck tw =
      some { p with alpha := p.alpha + (if accepted then (k : ℚ) else 0),
                    beta := p.beta + (if accepted then 0 else (k : ℚ)),
                    total_triggers := p.total_triggers + k } := by
  induction k with
  | zero =>
    cases accepted <;> simpa [iterate_optimizer_feedback] using h
  | succ k ih =>
    have hstep := update_from_feedback_found ih accepted
    rw [show iterate_optimizer_feedback tt ck tw accepted (k + 1) s =
        (update_from_feedback (iterate_optimizer_feedback tt ck tw accepted k s)
          tt ck tw accepted).2 from rfl, hstep]
    cases accepted <;> simp <;> constructor <;> ring

theorem iterate_learning_row {s : Store} {tt ck : String} {tw : Int} {p : ParamRow}
    (h : findParam s.params tt ck tw = some p) (accepted : Bool) (k : ℕ) :
    findParam ((iterate_learning_feedback tt ck tw accepted k s).params) tt ck tw =
      some { p with alpha := p.alpha + (if accepted then (k : ℚ) else 0),
                    beta := p.beta + (if accepted then 0 else (k : ℚ)),
                    total_triggers := p.total_triggers + k } := by
  induction k with
  | zero =>
    cases accepted <;> simpa [iterate_learning_feedback] using h
  | succ k ih =>
    have hstep := update_beta_distribution_found ih accepted
    rw [show iterate_learning_feedback tt ck tw accepted (k + 1) s =
        (update_beta_distribution (iterate_learning_feedback tt ck tw accepted k s)
          tt ck tw accepted).2 from rfl, hstep]
    cases accepted <;> simp <;> constructor <;> ring

/-- C7: starting from a stored belief Beta(a0, b0) with a0, b0 > 0, k
consecutive accepts yield confidence (a0+k)/(a0+b0+k) — strictly
increasing in k — and k consecutive rejects yield a0/(a0+b0+k) — strictly
decreasing in k and never 0; through both the optimizer's and the learning
service's update path. -/
theorem beta_update_trajectories (s : Store) (tt ck : String) (tw : Int) (p : ParamRow)
    (h : findParam s.params tt ck tw = some p) (ha : 0 < p.alpha) (hb : 0 < p.beta) :
    (∀ k : ℕ, storeConfidence (iterate_optimizer_feedback tt ck tw true k s) tt ck tw =
        (p.alpha + k) / (p.alpha + p.beta + k)) ∧
    (∀ k : ℕ, storeConfidence (iterate_learning_feedback tt ck tw true k s) tt ck tw =
        (p.alpha + k) / (p.alpha + p.beta + k)) ∧
    (∀ k : ℕ, storeConfidence (iterate_optimizer_feedback tt ck tw true k s) tt ck tw <
        storeConfidence (iterate_optimizer_feedback tt ck tw true (k + 1) s) tt ck tw) ∧
    (∀ k : ℕ, storeConfidence (iterate_optimizer_feedback tt ck tw false k s) tt ck tw =
        p.alpha / (p.alpha + p.beta + k)) ∧
    (∀ k : ℕ, storeConfidence (iterate_learning_feedback tt ck tw false k s) tt ck tw =
        p.alpha / (p.alpha + p.beta + k)) ∧
    (∀ k : ℕ, storeConfidence (iterate_optimizer_feedback tt ck tw false (k + 1) s) tt ck tw <
        storeConfidence (iterate_optimizer_feedback tt ck tw false k s) tt ck tw) ∧
    (∀ k : ℕ, 0 < storeConfidence (iterate_optimizer_feedback tt ck tw false k s) tt ck tw) := by
  have hconfA : ∀ k : ℕ,
      storeConfidence (iterate_optimizer_feedback tt ck tw true k s) tt ck tw =
        (p.alpha + k) / (p.alpha + p.beta + k) := by
    intro k
    unfold storeConfidence
    rw [iterate_optimizer_row h true k]
    simp
    ring_nf
  have hconfR : ∀ k : ℕ,
      storeConfidence (iterate_optimizer_feedback tt ck tw false k s) tt ck tw =
        p.alpha / (p.alpha + p.beta + k) := by
    intro k
    unfold storeConfidence
    rw [iterate_optimizer_row h false k]
    simp
    ring_nf
  have hposk : ∀ k : ℕ, (0 : ℚ) < p.alpha + p.beta + k := by
    intro k
    have : (0 : ℚ) ≤ (k : ℚ) := Nat.cast_nonneg k
    linarith
  refine ⟨hconfA, ?_, ?_, hconfR, ?_, ?_, ?_⟩
  · intro k
    unfold storeConfidence
    rw [iterate_learning_row h true k]
    simp
    ring_nf
  · intro k
    rw [hconfA k, hconfA (k + 1)]
    rw [div_lt_div_iff₀ (hposk k) (by push_cast; linarith [hposk k])]
    push_cast
    ring_nf
    nlinarith [hposk k]
  · intro k
    unfold storeConfidence
    rw [iterate_learning_row h false k]
    simp
    ring_nf
  · intro k
    rw [hconfR k, hconfR (k + 1)]
    rw [div_lt_div_iff₀ (by push_cast; linarith [hposk k]) (hposk k)]
    push_cast
    nlinarith [hposk k]
  · intro k
    rw [hconfR k]
    exact div_pos ha (hposk k)

def c7Store : Store := ⟨[], [⟨"Email", "STILL_morning_weekday_home", 30, 4, 2, 0⟩], [], []⟩

theorem beta_update_trajectories_witness :
    storeConfidence (iterate_optimizer_feedback "Email" "STILL_morning_weekday_home" 30 true 2
        c7Store) "Email" "STILL_morning_weekday_home" 30 = 3/4 ∧
      storeConfidence (iterate_learning_feedback "Email" "STILL_morning_weekday_home" 30 false 4
        c7Store) "Email" "STILL_morning_weekday_home" 30 = 2/5 ∧
      0 < storeConfidence (iterate_optimizer_feedback "Email" "STILL_morning_weekday_home" 30
        false 100 c7Store) "Email" "STILL_morning_weekday_home" 30 := by
  have h := beta_update_trajectories c7Store "Email" "STILL_morning_weekday_home" 30
    ⟨"Email", "STILL_morning_weekday_home", 30, 4, 2, 0⟩ rfl (by norm_num) (by norm_num)
  refine ⟨?_, ?_, h.2.2.2.2.2.2 100⟩
  · rw [h.1 2]
    norm_num
  · rw [h.2.2.2.2.1 4]
    norm_num

/-! ## Claim theorems for the rule matcher (C8) -/

/-- The claim's denominator: the number of predicate keys present in the
rule, counting each custom key/value pair as one predicate. -/
def declaredPredicateCount (t : TriggerCondition) : ℕ :=
  (match t.activity with | some _ => 1 | none => 0) +
  (match t.time_range with | some _ => 1 | none => 0) +
  (match t.location_vector with | some _ => 1 | none => 0) +
  (match t.car_bluetooth with | some _ => 1 | none => 0) +
  (match t.wifi_ssid with | some _ => 1 | none => 0) +
  (match t.min_speed with | some _ => 1 | none => 0) +
  (match t.custom with | some pairs => pairs.length | none => 0)

/-- The checks the code actually performs: every declared non-custom key,
plus each custom pair whose key the (truthy) additional context data
carries. -/
def performedChecks (t : TriggerCondition) (ctx : UserContext) : ℕ :=
  (match t.activity with | some _ => 1 | none => 0) +
  (match t.time_range with | some _ => 1 | none => 0) +
  (match t.location_vector with | some _ => 1 | none => 0) +
  (match t.car_bluetooth with | some _ => 1 | none => 0) +
  (match t.wifi_ssid with | some _ => 1 | none => 0) +
  (match t.min_speed with | some _ => 1 | none => 0) +
  (match t.custom with
    | none => 0
    | some pairs =>
      match ctx.additional_data with
      | none => 0
      | some ad =>
        if ad.isEmpty then 0
        else (pairs.filter (fun kv => (lookupStr ad kv.1).isSome)).length)

/-- A rule declaring an activity predicate and one custom predicate. -/
def c8Trigger : TriggerCondition :=
  { activity := some "STILL", time_range := none, location_vector := none,
    car_bluetooth := none, wifi_ssid := none, min_speed := none,
    custom := some [("battery_low", 1)] }

/-- A context that matches the activity but carries no additional data. -/
def c8Ctx : UserContext :=
  { hour := 9, minute := 0, weekday := 1, activity_type := "STILL", speed := 0,
    is_connected_to_car_bluetooth := false, wifi_ssid := none,
    location_vector := none, additional_data := none }

/-- C8 counterexample: the rule declares 2 predicate keys but the custom
pair is never checked (no additional data), so the code returns score 1/1
= 1 and a match, while the claim's formula successes / declared-keys gives
1/2 < 0.8 and no match.  The claim's score equation and match rule are
both false at this input. -/
theorem rule_score_counterexample :
    (evaluate_rule c8Trigger c8Ctx).successful_checks = 1 ∧
      (evaluate_rule c8Trigger c8Ctx).total_checks = 1 ∧
      declaredPredicateCount c8Trigger = 2 ∧
      (evaluate_rule c8Trigger c8Ctx).match_score = 1 ∧
      (evaluate_rule c8Trigger c8Ctx).rule_matches = true ∧
      (evaluate_rule c8Trigger c8Ctx).match_score ≠
        ((evaluate_rule c8Trigger c8Ctx).successful_checks : ℚ) /
          (declaredPredicateCount c8Trigger : ℚ) ∧
      ¬ ((4 : ℚ)/5 ≤ ((evaluate_rule c8Trigger c8Ctx).successful_checks : ℚ) /
          (declaredPredicateCount c8Trigger : ℚ)) := by
  have hsucc1 : (evaluate_rule c8Trigger c8Ctx).successful_checks = 1 := rfl
  have htot1 : (evaluate_rule c8Trigger c8Ctx).total_checks = 1 := rfl
  have hdecl : declaredPredicateCount c8Trigger = 2 := rfl
  have hscore : (evaluate_rule c8Trigger c8Ctx).match_score = 1 := by
    norm_num [evaluate_rule, activityCheck, timeCheck, locationCheck, bluetoothCheck,
      wifiCheck, speedCheck, customChecks, c8Trigger, c8Ctx]
  have hmatches : (evaluate_rule c8Trigger c8Ctx).rule_matches = true := by
    norm_num [evaluate_rule, activityCheck, timeCheck, locationCheck, bluetoothCheck,
      wifiCheck, speedCheck, customChecks, c8Trigger, c8Ctx]
  refine ⟨hsucc1, htot1, hdecl, hscore, hmatches, ?_, ?_⟩
  · rw [hscore, hsucc1, hdecl]
    norm_num
  · rw [hsucc1, hdecl]
    norm_num

theorem customFold_counts (ad : List (String × Int)) (pairs : List (String × Int)) :
    ∀ acc : ℕ × ℕ,
      (pairs.foldl (fun acc kv =>
        match lookupStr ad kv.1 with
        | none => acc
        | some v => (acc.1 + 1, acc.2 + if v == kv.2 then 1 else 0)) acc).1 =
          acc.1 + (pairs.filter (fun kv => (lookupStr ad kv.1).isSome)).length ∧
      (acc.2 ≤ acc.1 →
        (pairs.foldl (fun acc kv =>
          match lookupStr ad kv.1 with
          | none => acc
          | some v => (acc.1 + 1, acc.2 + if v == kv.2 then 1 else 0)) acc).2 ≤
          (pairs.foldl (fun acc kv =>
            match lookupStr ad kv.1 with
            | none => acc
            | some v => (acc.1 + 1, acc.2 + if v == kv.2 then 1 else 0)) acc).1) := by
  induction pairs with
  | nil => intro acc; exact ⟨by simp, fun h => h⟩
  | cons kv rest ih =>
    intro acc
    simp only [List.foldl_cons]
    rcases hl : lookupStr ad kv.1 with _ | v
    · have hfilter : (List.filter (fun kv => (lookupStr ad kv.1).isSome) (kv :: rest)) =
          List.filter (fun kv => (lookupStr ad kv.1).isSome) rest := by
        rw [List.filter_cons_of_neg (by simp [hl])]
      rw [hfilter]
      dsimp only
      exact ih acc
    · have hfilter : (List.filter (fun kv => (lookupStr ad kv.1).isSome) (kv :: rest)) =
          kv :: List.filter (fun kv => (lookupStr ad kv.1).isSome) rest := by
        rw [List.filter_cons_of_pos (by simp [hl])]
      rw [hfilter]
      dsimp only
      obtain ⟨ih1, ih2⟩ := ih (acc.1 + 1, acc.2 + if v == kv.2 then 1 else 0)
      constructor
      · rw [ih1]
        simp only [List.length_cons]
        omega
      · intro hacc
        refine ih2 ?_
        dsimp only
        by_cases hv : (v == kv.2) = true <;> simp [hv] <;> omega

theorem customChecks_counts (t : TriggerCondition) (ctx : UserContext) :
    (customChecks t ctx).1 =
      (match t.custom with
        | none => 0
        | some pairs =>
          match ctx.additional_data with
          | none => 0
          | some ad =>
            if ad.isEmpty then 0
            else (pairs.filter (fun kv => (lookupStr ad kv.1).isSome)).length) ∧
      (customChecks t ctx).2 ≤ (customChecks t ctx).1 := by
  unfold customChecks
  rcases t.custom with _ | pairs
  · exact ⟨rfl, le_refl 0⟩
  · rcases ctx.additional_data with _ | ad
    · exact ⟨rfl, le_refl 0⟩
    · by_cases he : ad.isEmpty
      · simp [he]
      · simp only [he, if_false, Bool.false_eq_true]
        obtain ⟨h1, h2⟩ := customFold_counts ad pairs (0, 0)
        exact ⟨by rw [h1]; simp, h2 (le_refl 0)⟩

/-- C8 amended: `_evaluate_rule` is a total function whose denominator is
the number of checks PERFORMED — every declared non-custom key plus each
custom pair whose key the additional data carries (a declared custom pair
absent from the context does not count); the score is
successes/performed (0 when no check is performed), successes never exceed
the denominator, and `matches` holds exactly when score ≥ 0.8. -/
theorem rule_score_amended (t : TriggerCondition) (ctx : UserContext) :
    (evaluate_rule t ctx).total_checks = performedChecks t ctx ∧
      (evaluate_rule t ctx).successful_checks ≤ (evaluate_rule t ctx).total_checks ∧
      (evaluate_rule t ctx).match_score =
        (if (evaluate_rule t ctx).total_checks = 0 then 0
         else ((evaluate_rule t ctx).successful_checks : ℚ) /
           ((evaluate_rule t ctx).total_checks : ℚ)) ∧
      ((evaluate_rule t ctx).rule_matches = true ↔
        (4 : ℚ)/5 ≤ (evaluate_rule t ctx).match_score) := by
  have htot : (evaluate_rule t ctx).total_checks =
      (activityCheck t ctx).1 + (timeCheck t ctx).1 + (locationCheck t ctx).1 +
        (bluetoothCheck t ctx).1 + (wifiCheck t ctx).1 + (speedCheck t ctx).1 +
        (customChecks t ctx).1 := rfl
  have hsucc : (evaluate_rule t ctx).successful_checks =
      (activityCheck t ctx).2 + (timeCheck t ctx).2 + (locationCheck t ctx).2 +
        (bluetoothCheck t ctx).2 + (wifiCheck t ctx).2 + (speedCheck t ctx).2 +
        (customChecks t ctx).2 := rfl
  have hscore : (evaluate_rule t ctx).match_score =
      (if 0 < (evaluate_rule t ctx).total_checks then
        ((evaluate_rule t ctx).successful_checks : ℚ) /
          ((evaluate_rule t ctx).total_checks : ℚ)
       else 0) := rfl
  have hmat : (evaluate_rule t ctx).rule_matches =
      decide ((4 : ℚ)/5 ≤ (evaluate_rule t ctx).match_score) := rfl
  have h1 : (activityCheck t ctx).2 ≤ (activityCheck t ctx).1 := by
    unfold activityCheck
    rcases t.activity with _ | a
    · exact le_refl 0
    · dsimp only
      split_ifs <;> omega
  have h2 : (timeCheck t ctx).2 ≤ (timeCheck t ctx).1 := by
    unfold timeCheck
    rcases t.time_range with _ | a
    · exact le_refl 0
    · dsimp only
      split_ifs <;> omega
  have h3 : (locationCheck t ctx).2 ≤ (locationCheck t ctx).1 := by
    unfold locationCheck
    rcases t.location_vector with _ | a
    · exact le_refl 0
    · dsimp only
      rcases ctx.location_vector with _ | l
      · dsimp only; omega
      · dsimp only
        split_ifs <;> omega
  have h4 : (bluetoothCheck t ctx).2 ≤ (bluetoothCheck t ctx).1 := by
    unfold bluetoothCheck
    rcases t.car_bluetooth with _ | b
    · exact le_refl 0
    · dsimp only
      split_ifs <;> omega
  have h5 : (wifiCheck t ctx).2 ≤ (wifiCheck t ctx).1 := by
    unfold wifiCheck
    rcases t.wifi_ssid with _ | e
    · exact le_refl 0
    · dsimp only
      rcases e with _ | e
      · dsimp only
        split_ifs <;> omega
      · dsimp only
        split_ifs <;> try omega
        rcases ctx.wifi_ssid with _ | w
        · dsimp only; omega
        · dsimp only
          split_ifs <;> omega
  have h6 : (speedCheck t ctx).2 ≤ (speedCheck t ctx).1 := by
    unfold speedCheck
    rcases t.min_speed with _ | m
    · exact le_refl 0
    · dsimp only
      split_ifs <;> omega
  have h7 := customChecks_counts t ctx
  refine ⟨?_, ?_, ?_, ?_⟩
  · rw [htot]
    unfold performedChecks
    have ha : (activityCheck t ctx).1 = (match t.activity with | some _ => 1 | none => 0) := by
      unfold activityCheck
      rcases t.activity with _ | a <;> rfl
    have hb : (timeCheck t ctx).1 = (match t.time_range with | some _ => 1 | none => 0) := by
      unfold timeCheck
      rcases t.time_range with _ | a <;> rfl
    have hc : (locationCheck t ctx).1 =
        (match t.location_vector with | some _ => 1 | none => 0) := by
      unfold locationCheck
      rcases t.location_vector with _ | a <;> rfl
    have hd : (bluetoothCheck t ctx).1 =
        (match t.car_bluetooth with | some _ => 1 | none => 0) := by
      unfold bluetoothCheck
      rcases t.car_bluetooth with _ | a <;> rfl
    have he : (wifiCheck t ctx).1 = (match t.wifi_ssid with | some _ => 1 | none => 0) := by
      unfold wifiCheck
      rcases t.wifi_ssid with _ | a <;> rfl
    have hf : (speedCheck t ctx).1 = (match t.min_speed with | some _ => 1 | none => 0) := by
      unfold speedCheck
      rcases t.min_speed with _ | a <;> rfl
    rw [ha, hb, hc, hd, he, hf, h7.1]
  · rw [htot, hsucc]
    have := h7.2
    omega
  · rw [hscore]
    rcases Nat.eq_zero_or_pos (evaluate_rule t ctx).total_checks with hz | hp
    · rw [hz]
      norm_num
    · rw [if_pos hp, if_neg (Nat.pos_iff_ne_zero.mp hp)]
  · rw [hmat]
    exact ⟨of_decide_eq_true, fun h => decide_eq_true h⟩

/-! ## Claim theorems for feedback recording (learning_service.py, inference.py) -/

/-- A concrete context for exercising `record_feedback`: stationary at an
unknown location, 03:00 on a Saturday. -/
def c4Ctx : UserContext :=
  { hour := 3, minute := 0, weekday := 6, activity_type := "S", speed := 0,
    is_connected_to_car_bluetooth := false, wifi_ssid := none, location_vector := none,
    additional_data := none }

/-- `_update_beta_distribution` only touches the parameters table: rules,
events and feedback logs pass through unchanged. -/
theorem update_beta_distribution_frame (s : Store) (tt ck : String) (tw : Int) (acc : Bool) :
    (update_beta_distribution s tt ck tw acc).2.rules = s.rules ∧
    (update_beta_distribution s tt ck tw acc).2.events = s.events ∧
    (update_beta_distribution s tt ck tw acc).2.feedback_logs = s.feedback_logs := by
  unfold update_beta_distribution
  rcases h : findParam s.params tt ck tw with _ | p <;> exact ⟨rfl, rfl, rfl⟩

/-- `_update_rule_weight` on a store whose rule table has no row with the
requested id reports `found := false` and returns the store unchanged. -/
theorem update_rule_weight_none2 (s : Store) (rid : Int) (acc : Bool) (rs : List RuleRow)
    (hs : s.rules = rs) (h : rs.find? (fun r => r.id == rid) = none) :
    update_rule_weight s rid acc = ({ old_weight := 0, new_weight := 0, found := false }, s) := by
  unfold update_rule_weight
  rw [hs, h]

/-- Characterization of `record_feedback` on a valid feedback string and an
unknown task id: the call succeeds, the Beta update and the log append are
applied, and the rule-weight update degenerates to a no-op with zero
weights. -/
theorem record_feedback_unknown_eq (s : Store) (task_id : Int) (tt : String)
    (ctx : UserContext) (tw : Int) (fb : String)
    (h : (strLower fb == "accept" || strLower fb == "reject" ||
          strLower fb == "accepted" || strLower fb == "rejected") = true)
    (hid : s.rules.find? (fun r => r.id == task_id) = none) :
    record_feedback s task_id tt ctx tw fb =
      ({ success := true, context_key := learning_generate_context_key ctx,
         alpha := (update_beta_distribution s tt (learning_generate_context_key ctx) tw
           (strLower fb == "accept" || strLower fb == "accepted")).1.alpha,
         beta := (update_beta_distribution s tt (learning_generate_context_key ctx) tw
           (strLower fb == "accept" || strLower fb == "accepted")).1.beta,
         new_confidence := (update_beta_distribution s tt (learning_generate_context_key ctx) tw
           (strLower fb == "accept" || strLower fb == "accepted")).1.new_confidence,
         confidence_change := roundTo 3
           ((update_beta_distribution s tt (learning_generate_context_key ctx) tw
              (strLower fb == "accept" || strLower fb == "accepted")).1.new_confidence -
            (update_beta_distribution s tt (learning_generate_context_key ctx) tw
              (strLower fb == "accept" || strLower fb == "accepted")).1.old_confidence),
         old_weight := 0, new_weight := 0, rule_found := false,
         total_feedback_count := (update_beta_distribution s tt
           (learning_generate_context_key ctx) tw
           (strLower fb == "accept" || strLower fb == "accepted")).1.total_feedback },
       { (update_beta_distribution s tt (learning_generate_context_key ctx) tw
           (strLower fb == "accept" || strLower fb == "accepted")).2 with
         feedback_logs := (update_beta_distribution s tt (learning_generate_context_key ctx) tw
           (strLower fb == "accept" || strLower fb == "accepted")).2.feedback_logs ++
           [{ rule_id := task_id,
              user_action := if strLower fb == "accept" || strLower fb == "accepted"
                then "accepted" else "rejected" }] }) := by
  have hfr := update_beta_distribution_frame s tt (learning_generate_context_key ctx) tw
    (strLower fb == "accept" || strLower fb == "accepted")
  have hru : update_rule_weight
      { (update_beta_distribution s tt (learning_generate_context_key ctx) tw
          (strLower fb == "accept" || strLower fb == "accepted")).2 with
        feedback_logs := (update_beta_distribution s tt (learning_generate_context_key ctx) tw
          (strLower fb == "accept" || strLower fb == "accepted")).2.feedback_logs ++
          [{ rule_id := task_id,
             user_action := if strLower fb == "accept" || strLower fb == "accepted"
               then "accepted" else "rejected" }] }
      task_id (strLower fb == "accept" || strLower fb == "accepted") =
      ({ old_weight := 0, new_weight := 0, found := false },
       { (update_beta_distribution s tt (learning_generate_context_key ctx) tw
           (strLower fb == "accept" || strLower fb == "accepted")).2 with
         feedback_logs := (update_beta_distribution s tt (learning_generate_context_key ctx) tw
           (strLower fb == "accept" || strLower fb == "accepted")).2.feedback_logs ++
           [{ rule_id := task_id,
              user_action := if strLower fb == "accept" || strLower fb == "accepted"
                then "accepted" else "rejected" }] }) :=
    update_rule_weight_none2 _ task_id _ s.rules hfr.1 hid
  unfold record_feedback
  rw [h]
  simp only [hru]
  rfl

/-- C4 counterexample: recording valid feedback against the task id 7,
which names no rule of the empty store, does NOT return a NotFound-style
error — the call reports success — and it mutates stored state anyway: a
Beta-parameter row and a feedback-log row are created.  This refutes the
claimed unknown-id error path and the all-or-nothing coupling of the three
updates. -/
theorem record_feedback_counterexample :
    emptyStore.rules.find? (fun r => r.id == 7) = none ∧
    (record_feedback emptyStore 7 "T" c4Ctx 30 "accept").1.success = true ∧
    (record_feedback emptyStore 7 "T" c4Ctx 30 "accept").1.rule_found = false ∧
    (record_feedback emptyStore 7 "T" c4Ctx 30 "accept").2.params.length = 1 ∧
    emptyStore.params.length = 0 ∧
    (record_feedback emptyStore 7 "T" c4Ctx 30 "accept").2.feedback_logs.length = 1 ∧
    emptyStore.feedback_logs.length = 0 :=
  ⟨rfl, rfl, rfl, rfl, rfl, rfl, rfl⟩

/-- C4 amended: `record_feedback` rejects an invalid feedback string with
no mutation, but a valid feedback string always succeeds — even for an
unknown task id, in which case the rule table is left untouched
(`rule_found = false`) while the Beta update and the feedback-log append
are still applied; the separate `InferenceEngine.apply_feedback` endpoint
does return an error with no store mutation on an unknown rule id or an
invalid outcome string. -/
theorem record_feedback_amended (s : Store) (task_id : Int) (tt : String) (ctx : UserContext)
    (tw : Int) (fb outcome : String) (ctxOpt : Option UserContext) :
    ((strLower fb == "accept" || strLower fb == "reject" ||
        strLower fb == "accepted" || strLower fb == "rejected") = false →
      (record_feedback s task_id tt ctx tw fb).1.success = false ∧
      (record_feedback s task_id tt ctx tw fb).2 = s) ∧
    ((strLower fb == "accept" || strLower fb == "reject" ||
        strLower fb == "accepted" || strLower fb == "rejected") = true →
      (record_feedback s task_id tt ctx tw fb).1.success = true ∧
      (s.rules.find? (fun r => r.id == task_id) = none →
        (record_feedback s task_id tt ctx tw fb).1.rule_found = false ∧
        (record_feedback s task_id tt ctx tw fb).2.rules = s.rules ∧
        (record_feedback s task_id tt ctx tw fb).2.events = s.events ∧
        (record_feedback s task_id tt ctx tw fb).2.params =
          (update_beta_distribution s tt (learning_generate_context_key ctx) tw
            (strLower fb == "accept" || strLower fb == "accepted")).2.params ∧
        (record_feedback s task_id tt ctx tw fb).2.feedback_logs =
          s.feedback_logs ++
            [{ rule_id := task_id,
               user_action := if strLower fb == "accept" || strLower fb == "accepted"
                 then "accepted" else "rejected" }])) ∧
    (s.rules.find? (fun r => r.id == task_id) = none →
      (apply_feedback s task_id outcome ctxOpt).1.success = false ∧
      (apply_feedback s task_id outcome ctxOpt).2 = s) ∧
    ((outcome == "positive" || outcome == "negative") = false →
      (apply_feedback s task_id outcome ctxOpt).1.success = false ∧
      (apply_feedback s task_id outcome ctxOpt).2 = s) := by
  refine ⟨?_, ?_, ?_, ?_⟩
  · intro h
    unfold record_feedback
    rw [h]
    exact ⟨rfl, rfl⟩
  · intro h
    refine ⟨?_, ?_⟩
    · unfold record_feedback
      rw [h]
      rfl
    · intro hid
      rw [record_feedback_unknown_eq s task_id tt ctx tw fb h hid]
      have hfr := update_beta_distribution_frame s tt (learning_generate_context_key ctx) tw
        (strLower fb == "accept" || strLower fb == "accepted")
      refine ⟨rfl, hfr.1, hfr.2.1, rfl, ?_⟩
      show (update_beta_distribution s tt (learning_generate_context_key ctx) tw
          (strLower fb == "accept" || strLower fb == "accepted")).2.feedback_logs ++ _ =
        s.feedback_logs ++ _
      rw [hfr.2.2]
  · intro hid
    unfold apply_feedback
    rw [hid]
    exact ⟨rfl, rfl⟩
  · intro hout
    unfold apply_feedback
    rcases hf : s.rules.find? (fun r => r.id == task_id) with _ | rule
    · rw [hf]
      exact ⟨rfl, rfl⟩
    · rw [hf]
      dsimp only
      rw [hout]
      exact ⟨rfl, rfl⟩

/-- C4 witness: on the empty store with the valid feedback `"reject"` and
the unknown task id 5, `record_feedback` reports success with
`rule_found = false`, and `apply_feedback` with the invalid outcome
`"bogus"` leaves the store unchanged. -/
theorem record_feedback_amended_witness :
    (record_feedback emptyStore 5 "T" c4Ctx 30 "reject").1.success = true ∧
    (record_feedback emptyStore 5 "T" c4Ctx 30 "reject").1.rule_found = false ∧
    (apply_feedback emptyStore 5 "bogus" none).1.success = false ∧
    (apply_feedback emptyStore 5 "bogus" none).2 = emptyStore := by
  have h := record_feedback_amended emptyStore 5 "T" c4Ctx 30 "reject" "bogus" none
  exact ⟨(h.2.1 rfl).1, ((h.2.1 rfl).2 rfl).1, (h.2.2.2 rfl).1, (h.2.2.2 rfl).2⟩

/-! ## Claim theorems for `infer_tasks` (C3) -/

/-- The Beta belief a reader of the parameters table observes for one
(task type, context key, window) key: the stored (alpha, beta) if a row
exists, otherwise the optimizer's Beta(4, 2) prior that
`_get_or_create_parameters` would materialize. -/
def paramView (s : Store) (tt ck : String) (tw : Int) : ℚ × ℚ :=
  match findParam s.params tt ck tw with
  | some p => (p.alpha, p.beta)
  | none => (4, 2)

/-- Two stores are observationally equal for the timing optimizer. -/
def SameView (s s' : Store) : Prop :=
  ∀ tt ck tw, paramView s tt ck tw = paramView s' tt ck tw

theorem sameView_refl (s : Store) : SameView s s := fun _ _ _ => rfl

theorem sameView_symm {s s' : Store} (h : SameView s s') : SameView s' s :=
  fun tt ck tw => (h tt ck tw).symm

theorem sameView_trans {a b c : Store} (h1 : SameView a b) (h2 : SameView b c) :
    SameView a c :=
  fun tt ck tw => (h1 tt ck tw).trans (h2 tt ck tw)

theorem get_or_create_alpha_beta (s : Store) (tt ck : String) (tw : Int) :
    (get_or_create_parameters s tt ck tw).1.alpha = (paramView s tt ck tw).1 ∧
    (get_or_create_parameters s tt ck tw).1.beta = (paramView s tt ck tw).2 := by
  unfold get_or_create_parameters paramView
  rcases h : findParam s.params tt ck tw with _ | p <;> exact ⟨rfl, rfl⟩

theorem get_or_create_frame (s : Store) (tt ck : String) (tw : Int) :
    (get_or_create_parameters s tt ck tw).2.rules = s.rules ∧
    (get_or_create_parameters s tt ck tw).2.events = s.events ∧
    (get_or_create_parameters s tt ck tw).2.feedback_logs = s.feedback_logs := by
  unfold get_or_create_parameters
  rcases h : findParam s.params tt ck tw with _ | p <;> exact ⟨rfl, rfl, rfl⟩

/-- Appending one row whose Beta values equal the optimizer prior does not
change what any reader observes through `paramView`. -/
theorem paramView_append (s : Store) (r : ParamRow) (tt' ck' : String) (tw' : Int)
    (hr : (r.alpha, r.beta) = ((4 : ℚ), (2 : ℚ))) :
    paramView { s with params := s.params ++ [r] } tt' ck' tw' = paramView s tt' ck' tw' := by
  unfold paramView findParam
  dsimp only
  rw [List.find?_append]
  rcases h2 : List.find? (fun q => paramKeyMatches q tt' ck' tw') s.params with _ | q
  · rcases h3 : List.find? (fun q => paramKeyMatches q tt' ck' tw') [r] with _ | q
    · rfl
    · have hq : q ∈ [r] := List.mem_of_find?_eq_some h3
      rw [List.mem_singleton] at hq
      subst hq
      exact hr
  · rfl

/-- Materializing a missing Beta row with the prior it would be read as
does not change what any reader observes. -/
theorem get_or_create_view (s : Store) (tt ck : String) (tw : Int) :
    SameView (get_or_create_parameters s tt ck tw).2 s := by
  intro tt' ck' tw'
  unfold get_or_create_parameters
  rcases h : findParam s.params tt ck tw with _ | p
  · dsimp only
    exact paramView_append s _ tt' ck' tw' rfl
  · dsimp only

theorem timingFold_congr (sqrtQ : ℚ → ℚ) (tt ck : String) (ws : List Int) :
    ∀ (l : List WindowOption) (s s' : Store), SameView s s' →
      (ws.foldl (timingWindowStep sqrtQ tt ck) (l, s)).1 =
          (ws.foldl (timingWindowStep sqrtQ tt ck) (l, s')).1 ∧
        SameView (ws.foldl (timingWindowStep sqrtQ tt ck) (l, s)).2
          (ws.foldl (timingWindowStep sqrtQ tt ck) (l, s')).2 := by
  induction ws with
  | nil => exact fun l s s' h => ⟨rfl, h⟩
  | cons w ws ih =>
    intro l s s' h
    simp only [List.foldl_cons]
    have hsv : SameView (get_or_create_parameters s tt ck w).2
        (get_or_create_parameters s' tt ck w).2 :=
      sameView_trans (get_or_create_view s tt ck w)
        (sameView_trans h (sameView_symm (get_or_create_view s' tt ck w)))
    have hpa : (get_or_create_parameters s tt ck w).1.alpha =
        (get_or_create_parameters s' tt ck w).1.alpha := by
      rw [(get_or_create_alpha_beta s tt ck w).1, (get_or_create_alpha_beta s' tt ck w).1,
        h tt ck w]
    have hpb : (get_or_create_parameters s tt ck w).1.beta =
        (get_or_create_parameters s' tt ck w).1.beta := by
      rw [(get_or_create_alpha_beta s tt ck w).2, (get_or_create_alpha_beta s' tt ck w).2,
        h tt ck w]
    show (List.foldl _ (timingWindowStep sqrtQ tt ck (l, s) w) ws).1 = _ ∧ _
    unfold timingWindowStep
    dsimp only
    rw [hpa, hpb]
    exact ih _ _ _ hsv

theorem timingFold_view (sqrtQ : ℚ → ℚ) (tt ck : String) (ws : List Int) :
    ∀ (l : List WindowOption) (s : Store),
      SameView ((ws.foldl (timingWindowStep sqrtQ tt ck) (l, s)).2) s := by
  induction ws with
  | nil => exact fun l s => sameView_refl s
  | cons w ws ih =>
    intro l s
    simp only [List.foldl_cons]
    unfold timingWindowStep
    dsimp only
    exact sameView_trans (ih _ _) (get_or_create_view s tt ck w)

theorem timingFold_frame (sqrtQ : ℚ → ℚ) (tt ck : String) (ws : List Int) :
    ∀ (l : List WindowOption) (s : Store),
      (ws.foldl (timingWindowStep sqrtQ tt ck) (l, s)).2.rules = s.rules ∧
      (ws.foldl (timingWindowStep sqrtQ tt ck) (l, s)).2.events = s.events ∧
      (ws.foldl (timingWindowStep sqrtQ tt ck) (l, s)).2.feedback_logs = s.feedback_logs := by
  induction ws with
  | nil => exact fun l s => ⟨rfl, rfl, rfl⟩
  | cons w ws ih =>
    intro l s
    simp only [List.foldl_cons]
    unfold timingWindowStep
    dsimp only
    exact ⟨((ih _ _).1).trans (get_or_create_frame s tt ck w).1,
      ((ih _ _).2.1).trans (get_or_create_frame s tt ck w).2.1,
      ((ih _ _).2.2).trans (get_or_create_frame s tt ck w).2.2⟩

theorem get_optimal_timing_congr (sqrtQ : ℚ → ℚ) (tt : String) (ctx : UserContext)
    (s s' : Store) (h : SameView s s') :
    (get_optimal_timing sqrtQ s tt ctx).1 = (get_optimal_timing sqrtQ s' tt ctx).1 ∧
    SameView (get_optimal_timing sqrtQ s tt ctx).2 (get_optimal_timing sqrtQ s' tt ctx).2 := by
  obtain ⟨h1, h2⟩ :=
    timingFold_congr sqrtQ tt (generate_context_key ctx) TIMING_WINDOWS [] s s' h
  unfold get_optimal_timing
  dsimp only
  exact ⟨by rw [h1], h2⟩

theorem get_optimal_timing_view (sqrtQ : ℚ → ℚ) (tt : String) (ctx : UserContext)
    (s : Store) : SameView (get_optimal_timing sqrtQ s tt ctx).2 s := by
  unfold get_optimal_timing
  dsimp only
  exact timingFold_view sqrtQ tt (generate_context_key ctx) TIMING_WINDOWS [] s

theorem get_optimal_timing_frame (sqrtQ : ℚ → ℚ) (tt : String) (ctx : UserContext)
    (s : Store) :
    (get_optimal_timing sqrtQ s tt ctx).2.rules = s.rules ∧
    (get_optimal_timing sqrtQ s tt ctx).2.events = s.events ∧
    (get_optimal_timing sqrtQ s tt ctx).2.feedback_logs = s.feedback_logs := by
  unfold get_optimal_timing
  dsimp only
  exact timingFold_frame sqrtQ tt (generate_context_key ctx) TIMING_WINDOWS [] s

theorem ruleFold_congr (sqrtQ : ℚ → ℚ) (ctx : UserContext) (rules : List RuleRow) :
    ∀ (l : List InferredTask) (s s' : Store), SameView s s' →
      (rules.foldl (inferRuleStep sqrtQ ctx) (l, s)).1 =
          (rules.foldl (inferRuleStep sqrtQ ctx) (l, s')).1 ∧
        SameView (rules.foldl (inferRuleStep sqrtQ ctx) (l, s)).2
          (rules.foldl (inferRuleStep sqrtQ ctx) (l, s')).2 := by
  induction rules with
  | nil => exact fun l s s' h => ⟨rfl, h⟩
  | cons rule rules ih =>
    intro l s s' h
    simp only [List.foldl_cons]
    show (List.foldl _ (inferRuleStep sqrtQ ctx (l, s) rule) rules).1 = _ ∧ _
    unfold inferRuleStep
    dsimp only
    by_cases ht : truthyOptStr rule.calendar_event_id = true
    · simp only [if_pos ht]
      exact ih l s s' h
    · simp only [if_neg ht]
      by_cases hm : (evaluate_rule rule.trigger_condition ctx).rule_matches = true
      · simp only [if_pos hm]
        by_cases hb : (3 : ℚ)/5 ≤
            rule.current_probability_weight * (evaluate_rule rule.trigger_condition ctx).match_score
        · simp only [if_pos hb]
          obtain ⟨htr1, htr2⟩ := get_optimal_timing_congr sqrtQ rule.task_name ctx s s' h
          rw [htr1]
          by_cases hc : (decide ((7 : ℚ)/10 ≤ rule.current_probability_weight *
                (evaluate_rule rule.trigger_condition ctx).match_score) ||
              (get_optimal_timing sqrtQ s' rule.task_name ctx).1.meets_threshold) = true
          · simp only [if_pos hc]
            exact ih _ _ _ htr2
          · simp only [if_neg hc]
            exact ih _ _ _ htr2
        · simp only [if_neg hb]
          exact ih l s s' h
      · simp only [if_neg hm]
        exact ih l s s' h

theorem ruleFold_view (sqrtQ : ℚ → ℚ) (ctx : UserContext) (rules : List RuleRow) :
    ∀ (l : List InferredTask) (s : Store),
      SameView ((rules.foldl (inferRuleStep sqrtQ ctx) (l, s)).2) s := by
  induction rules with
  | nil => exact fun l s => sameView_refl s
  | cons rule rules ih =>
    intro l s
    simp only [List.foldl_cons]
    show SameView (List.foldl _ (inferRuleStep sqrtQ ctx (l, s) rule) rules).2 s
    unfold inferRuleStep
    dsimp only
    by_cases ht : truthyOptStr rule.calendar_event_id = true
    · simp only [if_pos ht]
      exact ih l s
    · simp only [if_neg ht]
      by_cases hm : (evaluate_rule rule.trigger_condition ctx).rule_matches = true
      · simp only [if_pos hm]
        by_cases hb : (3 : ℚ)/5 ≤
            rule.current_probability_weight * (evaluate_rule rule.trigger_condition ctx).match_score
        · simp only [if_pos hb]
          by_cases hc : (decide ((7 : ℚ)/10 ≤ rule.current_probability_weight *
                (evaluate_rule rule.trigger_condition ctx).match_score) ||
              (get_optimal_timing sqrtQ s rule.task_name ctx).1.meets_threshold) = true
          · simp only [if_pos hc]
            exact sameView_trans (ih _ _) (get_optimal_timing_view sqrtQ rule.task_name ctx s)
          · simp only [if_neg hc]
            exact sameView_trans (ih _ _) (get_optimal_timing_view sqrtQ rule.task_name ctx s)
        · simp only [if_neg hb]
          exact ih l s
      · simp only [if_neg hm]
        exact ih l s

theorem ruleFold_frame (sqrtQ : ℚ → ℚ) (ctx : UserContext) (rules : List RuleRow) :
    ∀ (l : List InferredTask) (s : Store),
      (rules.foldl (inferRuleStep sqrtQ ctx) (l, s)).2.rules = s.rules ∧
      (rules.foldl (inferRuleStep sqrtQ ctx) (l, s)).2.events = s.events ∧
      (rules.foldl (inferRuleStep sqrtQ ctx) (l, s)).2.feedback_logs = s.feedback_logs := by
  induction rules with
  | nil => exact fun l s => ⟨rfl, rfl, rfl⟩
  | cons rule rules ih =>
    intro l s
    simp only [List.foldl_cons]
    show (List.foldl _ (inferRuleStep sqrtQ ctx (l, s) rule) rules).2.rules = s.rules ∧ _ ∧ _
    unfold inferRuleStep
    dsimp only
    by_cases ht : truthyOptStr rule.calendar_event_id = true
    · simp only [if_pos ht]
      exact ih l s
    · simp only [if_neg ht]
      by_cases hm : (evaluate_rule rule.trigger_condition ctx).rule_matches = true
      · simp only [if_pos hm]
        by_cases hb : (3 : ℚ)/5 ≤
            rule.current_probability_weight * (evaluate_rule rule.trigger_condition ctx).match_score
        · simp only [if_pos hb]
          by_cases hc : (decide ((7 : ℚ)/10 ≤ rule.current_probability_weight *
                (evaluate_rule rule.trigger_condition ctx).match_score) ||
              (get_optimal_timing sqrtQ s rule.task_name ctx).1.meets_threshold) = true
          · simp only [if_pos hc]
            exact ⟨((ih _ _).1).trans (get_optimal_timing_frame sqrtQ rule.task_name ctx s).1,
              ((ih _ _).2.1).trans (get_optimal_timing_frame sqrtQ rule.task_name ctx s).2.1,
              ((ih _ _).2.2).trans (get_optimal_timing_frame sqrtQ rule.task_name ctx s).2.2⟩
          · simp only [if_neg hc]
            exact ⟨((ih _ _).1).trans (get_optimal_timing_frame sqrtQ rule.task_name ctx s).1,
              ((ih _ _).2.1).trans (get_optimal_timing_frame sqrtQ rule.task_name ctx s).2.1,
              ((ih _ _).2.2).trans (get_optimal_timing_frame sqrtQ rule.task_name ctx s).2.2⟩
        · simp only [if_neg hb]
          exact ih l s
      · simp only [if_neg hm]
        exact ih l s

/-- Every evaluation of the reminder policy either declines and hands back
the event unchanged, or fires. -/
theorem should_remind_cases (e : EventRow) (ctx : UserContext) (now : ℚ) :
    should_remind_about_event e ctx now = ⟨false, 0, e⟩ ∨
    (should_remind_about_event e ctx now).should = true := by
  unfold should_remind_about_event
  dsimp only
  repeat' split
  all_goals first
    | exact Or.inl rfl
    | exact Or.inr rfl

/-- One calendar-loop step on an event that is not eligible (or not
upcoming) only copies the event forward. -/
theorem calendarStep_notfire (s : Store) (ctx : UserContext) (now : ℚ)
    (l : List InferredTask) (evs : List EventRow) (e : EventRow)
    (h : upcomingFilter e now = true → (should_remind_about_event e ctx now).should = false) :
    calendarStep s ctx now (l, evs) e = (l, evs ++ [e]) := by
  unfold calendarStep
  by_cases hu : upcomingFilter e now = true
  · rcases should_remind_cases e ctx now with hc | hc
    · rw [if_pos hu, hc]
      rfl
    · rw [h hu] at hc
      exact absurd hc (by simp)
  · rw [if_neg hu]

theorem calFold_nofire (s : Store) (ctx : UserContext) (now : ℚ) (es : List EventRow) :
    ∀ (l : List InferredTask) (evs : List EventRow),
      (∀ e ∈ es, upcomingFilter e now = true →
        (should_remind_about_event e ctx now).should = false) →
      es.foldl (calendarStep s ctx now) (l, evs) = (l, evs ++ es) := by
  induction es with
  | nil => intro l evs h; simp
  | cons e es ih =>
    intro l evs h
    simp only [List.foldl_cons]
    rw [calendarStep_notfire s ctx now l evs e (h e (List.mem_cons_self e es))]
    rw [ih l (evs ++ [e]) (fun e' he' hu' => h e' (List.mem_cons_of_mem _ he') hu')]
    simp

/-- When no upcoming event is eligible, the calendar pass produces no task
and leaves the store untouched. -/
theorem get_calendar_reminders_nofire (s : Store) (ctx : UserContext) (now : ℚ)
    (h : ∀ e ∈ s.events, upcomingFilter e now = true →
      (should_remind_about_event e ctx now).should = false) :
    get_calendar_reminders s ctx now = ([], s) := by
  unfold get_calendar_reminders
  rw [calFold_nofire s ctx now s.events [] [] h]
  rfl

/-- Characterization of `infer_tasks` on a store none of whose upcoming
events is eligible to fire: the calendar pass contributes nothing and the
result is determined by the rule fold alone. -/
theorem infer_tasks_nofire_eq (sqrtQ : ℚ → ℚ) (enable_search : Bool) (ctx : UserContext)
    (now : ℚ) (t : Store)
    (ht : ∀ e ∈ t.events, upcomingFilter e now = true →
      (should_remind_about_event e ctx now).should = false) :
    infer_tasks sqrtQ enable_search t ctx now =
      (if enable_search && decide (1 < ((t.rules.filter (fun r => r.is_active == 1)).foldl
          (inferRuleStep sqrtQ ctx) ([], t)).1.length) then
        apply_search_optimization ((t.rules.filter (fun r => r.is_active == 1)).foldl
          (inferRuleStep sqrtQ ctx) ([], t)).1
      else
        sortTasks ((t.rules.filter (fun r => r.is_active == 1)).foldl
          (inferRuleStep sqrtQ ctx) ([], t)).1,
       ((t.rules.filter (fun r => r.is_active == 1)).foldl (inferRuleStep sqrtQ ctx)
         ([], t)).2) := by
  have hfr := ruleFold_frame sqrtQ ctx (t.rules.filter (fun r => r.is_active == 1)) [] t
  have hcal := get_calendar_reminders_nofire
    ((t.rules.filter (fun r => r.is_active == 1)).foldl (inferRuleStep sqrtQ ctx) ([], t)).2
    ctx now (by
      intro e he
      rw [hfr.2.1] at he
      exact ht e he)
  unfold infer_tasks
  dsimp only
  rw [hcal]
  simp only [List.append_nil]

/-- C3 amended: when no upcoming event of the store is eligible to fire a
reminder under the given context, `infer_tasks` is idempotent — a second
call on the returned store with the same context yields the identical
ranked list — and the call leaves the rule table and the calendar events
unchanged (the Beta-parameter table may still grow, but only by rows
holding exactly the prior that readers already assumed).  Without that
proviso the decision operation does mutate persisted state: an eligible
reminder evaluation writes `last_reminded_at`/`reminder_count` back to the
event inside the decision pass. -/
theorem infer_tasks_idempotent (sqrtQ : ℚ → ℚ) (enable_search : Bool) (s : Store)
    (ctx : UserContext) (now : ℚ)
    (h : ∀ e ∈ s.events, upcomingFilter e now = true →
      (should_remind_about_event e ctx now).should = false) :
    (infer_tasks sqrtQ enable_search (infer_tasks sqrtQ enable_search s ctx now).2 ctx now).1 =
      (infer_tasks sqrtQ enable_search s ctx now).1 ∧
    (infer_tasks sqrtQ enable_search s ctx now).2.rules = s.rules ∧
    (infer_tasks sqrtQ enable_search s ctx now).2.events = s.events := by
  have hfr1 := ruleFold_frame sqrtQ ctx (s.rules.filter (fun r => r.is_active == 1)) [] s
  have h1 := infer_tasks_nofire_eq sqrtQ enable_search ctx now s h
  have hrules1 : (infer_tasks sqrtQ enable_search s ctx now).2.rules = s.rules := by
    rw [h1]
    exact hfr1.1
  have hevents1 : (infer_tasks sqrtQ enable_search s ctx now).2.events = s.events := by
    rw [h1]
    exact hfr1.2.1
  have hview1 : SameView (infer_tasks sqrtQ enable_search s ctx now).2 s := by
    rw [h1]
    exact ruleFold_view sqrtQ ctx (s.rules.filter (fun r => r.is_active == 1)) [] s
  have hT : ∀ e ∈ (infer_tasks sqrtQ enable_search s ctx now).2.events,
      upcomingFilter e now = true →
      (should_remind_about_event e ctx now).should = false := by
    intro e he
    rw [hevents1] at he
    exact h e he
  have h2 := infer_tasks_nofire_eq sqrtQ enable_search ctx now
    (infer_tasks sqrtQ enable_search s ctx now).2 hT
  have hlist : (((infer_tasks sqrtQ enable_search s ctx now).2.rules.filter
      (fun r => r.is_active == 1)).foldl (inferRuleStep sqrtQ ctx)
      ([], (infer_tasks sqrtQ enable_search s ctx now).2)).1 =
      ((s.rules.filter (fun r => r.is_active == 1)).foldl (inferRuleStep sqrtQ ctx)
        ([], s)).1 := by
    rw [hrules1]
    exact (ruleFold_congr sqrtQ ctx (s.rules.filter (fun r => r.is_active == 1)) []
      (infer_tasks sqrtQ enable_search s ctx now).2 s hview1).1
  refine ⟨?_, hrules1, hevents1⟩
  rw [h2]
  dsimp only
  rw [hlist, h1]

/-- A low-priority event that has already been reminded once: upcoming,
but the reminder policy never fires for it again. -/
def c3WEvent : EventRow :=
  { event_id := "w1", title := "W", description := none, start_time := some 600,
    priority := "low", preparation_time_minutes := none, travel_time_minutes := none,
    optimal_reminder_time := none, last_reminded_at := some (-3600), reminder_count := 1,
    completed := 0, dismissed := 0, suggested_contexts := none }

/-- A store holding only the already-reminded low-priority event. -/
def c3WStore : Store := ⟨[], [], [c3WEvent], []⟩

/-- A fixed context: stationary, 03:00 on a Saturday, location unknown. -/
def c3Ctx : UserContext :=
  { hour := 3, minute := 0, weekday := 6, activity_type := "S", speed := 0,
    is_connected_to_car_bluetooth := false, wifi_ssid := none, location_vector := none,
    additional_data := none }

/-- C3 witness: on a store whose only event is upcoming but never eligible
(low priority, already reminded once), two successive `infer_tasks` calls
agree and the rule/event tables are untouched. -/
theorem infer_tasks_idempotent_witness :
    (infer_tasks (fun _ => 0) true
        (infer_tasks (fun _ => 0) true c3WStore c3Ctx 0).2 c3Ctx 0).1 =
      (infer_tasks (fun _ => 0) true c3WStore c3Ctx 0).1 ∧
    (infer_tasks (fun _ => 0) true c3WStore c3Ctx 0).2.events = c3WStore.events := by
  have h := infer_tasks_idempotent (fun _ => 0) true c3WStore c3Ctx 0 (by
    intro e he hu
    have he2 : e = c3WEvent := by
      have : e ∈ [c3WEvent] := he
      rw [List.mem_singleton] at this
      exact this
    rw [he2]
    rfl)
  exact ⟨h.1, h.2.2⟩

/-- A trigger condition declaring no predicate at all. -/
def c3Trigger : TriggerCondition := ⟨none, none, none, none, none, none, none⟩

/-- An active rule linked to calendar event `"ev1"` (so the rule loop
skips it and only the calendar pass can surface it). -/
def c3Rule : RuleRow :=
  { id := 1, task_name := "E", task_description := none, trigger_condition := c3Trigger,
    current_probability_weight := 1/2, calendar_event_id := some "ev1", is_active := 1 }

/-- A high-priority event 20 minutes away whose optimal reminder time has
passed and that has never been reminded. -/
def c3Event : EventRow :=
  { event_id := "ev1", title := "E", description := none, start_time := some 1200,
    priority := "high", preparation_time_minutes := none, travel_time_minutes := none,
    optimal_reminder_time := some (-300), last_reminded_at := none, reminder_count := 0,
    completed := 0, dismissed := 0, suggested_contexts := none }

/-- The same event after the first decision pass fired its reminder. -/
def c3Event2 : EventRow := { c3Event with last_reminded_at := some 0, reminder_count := 1 }

def c3Store : Store := ⟨[c3Rule], [], [c3Event], []⟩

def c3Store2 : Store := ⟨[c3Rule], [], [c3Event2], []⟩

/-- The calendar reminder task the first call produces. -/
def c3Task : InferredTask :=
  { rule_id := 1, task_name := "E", confidence := 19/20, optimal_timing_window := some 20,
    timing_confidence := some (19/20),
    timing_options := [⟨15, 133/160, 133/160⟩, ⟨10, 209/240, 209/240⟩] }

/-- C3 counterexample: with one upcoming high-priority event whose
reminder is due, `infer_tasks` returns one ranked task and writes the
fired reminder back to the store; the second call on the returned store
with the identical context returns the empty list.  The decision
operation both mutates persisted state and fails idempotence. -/
theorem infer_tasks_counterexample :
    (infer_tasks (fun _ => 0) true c3Store c3Ctx 0).1.length = 1 ∧
    (infer_tasks (fun _ => 0) true
        (infer_tasks (fun _ => 0) true c3Store c3Ctx 0).2 c3Ctx 0).1.length = 0 ∧
    (infer_tasks (fun _ => 0) true c3Store c3Ctx 0).2.events.map
        (fun e => e.reminder_count) = [1] ∧
    c3Store.events.map (fun e => e.reminder_count) = [0] := by
  have hd1 : should_remind_about_event c3Event c3Ctx 0 = ⟨true, 19/20, c3Event2⟩ := by
    unfold should_remind_about_event c3Event2 c3Event c3Ctx
    norm_num [pythonInt]
  have hd2 : should_remind_about_event c3Event2 c3Ctx 0 = ⟨false, 0, c3Event2⟩ := by
    unfold should_remind_about_event c3Event2 c3Event c3Ctx
    norm_num [pythonInt]
  have hup1 : upcomingFilter c3Event 0 = true := by
    norm_num [upcomingFilter, c3Event]
  have hup2 : upcomingFilter c3Event2 0 = true := by
    norm_num [upcomingFilter, c3Event2, c3Event]
  have hstep1 : calendarStep c3Store c3Ctx 0 ([], []) c3Event = ([c3Task], [c3Event2]) := by
    unfold calendarStep
    rw [if_pos hup1, hd1]
    rw [show List.find? (fun r => r.calendar_event_id == some c3Event.event_id) c3Store.rules =
      some c3Rule from rfl]
    norm_num [pythonInt, c3Task, c3Rule, c3Event, List.filterMap_cons]
  have hstep2 : calendarStep c3Store2 c3Ctx 0 ([], []) c3Event2 = ([], [c3Event2]) := by
    unfold calendarStep
    rw [if_pos hup2, hd2]
    rfl
  have hcal1 : get_calendar_reminders c3Store c3Ctx 0 = ([c3Task], c3Store2) := by
    unfold get_calendar_reminders
    rw [show c3Store.events = [c3Event] from rfl]
    simp only [List.foldl_cons, List.foldl_nil]
    rw [hstep1]
    rfl
  have hcal2 : get_calendar_reminders c3Store2 c3Ctx 0 = ([], c3Store2) := by
    unfold get_calendar_reminders
    rw [show c3Store2.events = [c3Event2] from rfl]
    simp only [List.foldl_cons, List.foldl_nil]
    rw [hstep2]
    rfl
  have hfold1 : ∀ t : Store, (c3Store.rules.filter (fun r => r.is_active == 1)).foldl
      (inferRuleStep (fun _ => 0) c3Ctx) ([], t) = ([], t) := by
    intro t
    rw [show c3Store.rules.filter (fun r => r.is_active == 1) = [c3Rule] from rfl]
    simp only [List.foldl_cons, List.foldl_nil]
    rfl
  have hfold2 : ∀ t : Store, (c3Store2.rules.filter (fun r => r.is_active == 1)).foldl
      (inferRuleStep (fun _ => 0) c3Ctx) ([], t) = ([], t) := by
    intro t
    rw [show c3Store2.rules.filter (fun r => r.is_active == 1) = [c3Rule] from rfl]
    simp only [List.foldl_cons, List.foldl_nil]
    rfl
  have h1 : infer_tasks (fun _ => 0) true c3Store c3Ctx 0 = ([c3Task], c3Store2) := by
    unfold infer_tasks
    dsimp only
    rw [hfold1 c3Store]
    dsimp only
    rw [hcal1]
    rfl
  have h2 : infer_tasks (fun _ => 0) true c3Store2 c3Ctx 0 = ([], c3Store2) := by
    unfold infer_tasks
    dsimp only
    rw [hfold2 c3Store2]
    dsimp only
    rw [hcal2]
    rfl
  refine ⟨?_, ?_, ?_, ?_⟩
  · rw [h1]
    rfl
  · rw [h1]
    dsimp only
    rw [h2]
    rfl
  · rw [h1]
    rfl
  · rfl

end Scheduler
